import Mathlib

/-!
Shallow embedding of the `pytopmod` DLFL core (vertex/face key stores,
the DLFL mesh record, circular-list helpers and the manifold operators
`create_point_sphere`, `insert_edge`, `delete_edge`, `vertex_trace`),
translated from `src/pytopmod/core/{keystore,mesh,circular_list,corner}.py`
and `src/pytopmod/core/dlfl/{mesh,operators}.py`, together with theorems
checking the specified properties of those operators.

Python dictionaries are embedded as insertion-ordered association lists,
Python sets of face keys as insertion-ordered duplicate-free lists, and
`frozenset` edge keys as `Finset String`.  The string keys `"v1"`,
`"f2"`, ... generated by `KeyStore` are kept as strings.  Fallible
Python code (`next` on an empty generator, unbounded `while` loops) is
embedded with `Option` results and explicit fuel.
-/

namespace PyTopMod

/-! ### circular_list.py -/

namespace circular_list

variable {α : Type} [DecidableEq α] [Inhabited α]

/-- `pairs(list_)`: item pairs in a circular list; the source implements it as
`tuples(list_, 2)`, indexing with `(index + offset) % len(list_)`. -/
def pairs (l : List α) : List (α × α) :=
  (List.range l.length).map (fun i => (l.getD i default, l.getD ((i + 1) % l.length) default))

/-- Python `list.index` (first occurrence; the source raises on a missing
item, which theorems exclude by hypothesis). -/
def index_of (l : List α) (x : α) : Nat := l.findIdx (fun y => decide (y = x))

/-- `circulated_to(list_, index)`: copy rotated so the item at `index` is last. -/
def circulated_to (l : List α) (index : Nat) : List α :=
  l.drop ((index + 1) % l.length) ++ l.take ((index + 1) % l.length)

/-- `circulated_to_item(list_, item)`. -/
def circulated_to_item (l : List α) (x : α) : List α :=
  circulated_to l (index_of l x)

/-- `circulated_to_pair(list_, pair)`. -/
def circulated_to_pair (l : List α) (p : α × α) : List α :=
  circulated_to l (index_of (pairs l) p + 1)

/-- `split_at(list_, index)`: the two slices split at `index % len(list_)`. -/
def split_at (l : List α) (index : Nat) : List α × List α :=
  (l.take (index % l.length), l.drop (index % l.length))

/-- `split_at_item(list_, item)`. -/
def split_at_item (l : List α) (x : α) : List α × List α :=
  split_at l (index_of l x + 1)

/-- `split_at_pair(list_, pair)`. -/
def split_at_pair (l : List α) (p : α × α) : List α × List α :=
  split_at l (index_of (pairs l) p + 2)

/-- `next_item(list_, item)`. -/
def next_item (l : List α) (x : α) : α :=
  l.getD ((index_of l x + 1) % l.length) default

/-- `previous_item(list_, item)`: `list_[(list_.index(item) - 1) % len(list_)]`
with Python's nonnegative `%`, written here as `+ (len - 1)`. -/
def previous_item (l : List α) (x : α) : α :=
  l.getD ((index_of l x + (l.length - 1)) % l.length) default

end circular_list

/-! ### keystore.py -/

/-- `KeyStore`: prefix, index offset and the `collections.Counter` contents,
kept as an insertion-ordered association list of (key, count). -/
structure KeyStore where
  pfx : String
  key_index_offset : Nat
  counter : List (String × Int)
deriving DecidableEq, Repr

namespace KeyStore

/-- `Counter[k]` (0 for an absent key). -/
def counter_get (c : List (String × Int)) (k : String) : Int :=
  ((c.find? (fun e => decide (e.1 = k))).map (·.2)).getD 0

/-- key membership in the underlying dict (any count, also 0 or negative). -/
def counter_has (c : List (String × Int)) (k : String) : Bool :=
  c.any (fun e => decide (e.1 = k))

/-- `Counter.update([k])` / `Counter.subtract([k])`: add `n` to the count of
`k`, appending a new entry at the end of the dict order if `k` is absent. -/
def counter_add (c : List (String × Int)) (k : String) (n : Int) : List (String × Int) :=
  if counter_has c k then c.map (fun e => if e.1 = k then (e.1, e.2 + n) else e)
  else c ++ [(k, n)]

/-- The key `new()` would generate: `f"{prefix}{len(counter) + offset}"`
(`len` of a `Counter` is the number of distinct keys in the dict). -/
def next_key (s : KeyStore) : String :=
  s.pfx ++ toString (s.counter.length + s.key_index_offset)

/-- `new()`. -/
def new (s : KeyStore) : String × KeyStore :=
  (next_key s, { s with counter := counter_add s.counter (next_key s) 1 })

/-- `delete(key)`: unconditionally `Counter.subtract([key])`. -/
def delete (s : KeyStore) (k : String) : KeyStore :=
  { s with counter := counter_add s.counter k (-1) }

/-- `__contains__`: count strictly positive. -/
def mem_store (s : KeyStore) (k : String) : Bool :=
  decide (0 < counter_get s.counter k)

/-- `__len__` = `Counter.total()`: the sum of all counts. -/
def total (s : KeyStore) : Int := (s.counter.map (·.2)).sum

/-- the distinct keys of a counter with positive count, in insertion order. -/
def counter_live (c : List (String × Int)) : List String :=
  (c.filter (fun e => decide (0 < e.2))).map (·.1)

/-- The distinct keys with positive count, in insertion order (the distinct
elements enumerated by `Counter.elements()`). -/
def live_keys (s : KeyStore) : List String := counter_live s.counter

/-- A fresh store with the given prefix (offset defaults to 1 in the source). -/
def mk0 (p : String) : KeyStore := ⟨p, 1, []⟩

end KeyStore

/-! ### mesh.py / dlfl/mesh.py / corner.py -/

abbrev VertexKey := String
abbrev FaceKey := String

/-- `EdgeKey = frozenset[VertexKey]`. -/
abbrev EdgeKey := Finset String

/-- `frozenset((v1, v2))` (a singleton when the two keys coincide). -/
def edge_key (v1 v2 : VertexKey) : EdgeKey := {v1, v2}

/-- Coordinates; the source stores Python float triples, which are only ever
copied by the operators under study, so an exact numeric type stands in. -/
abbrev Point3D := ℚ × ℚ × ℚ

/-! Python `dict` helpers on insertion-ordered association lists. -/

namespace PyDict

variable {β : Type}

def has (m : List (String × β)) (k : String) : Bool :=
  m.any (fun e => decide (e.1 = k))

def getd (m : List (String × β)) (k : String) (d : β) : β :=
  ((m.find? (fun e => decide (e.1 = k))).map (·.2)).getD d

/-- `m[k] = v`: replace in place, else append at the end of the dict order. -/
def set (m : List (String × β)) (k : String) (v : β) : List (String × β) :=
  if has m k then m.map (fun e => if e.1 = k then (k, v) else e)
  else m ++ [(k, v)]

/-- `del m[k]`. -/
def del (m : List (String × β)) (k : String) : List (String × β) :=
  m.filter (fun e => !decide (e.1 = k))

def keys (m : List (String × β)) : List String := m.map (·.1)

end PyDict

/-- Python `set` add on an insertion-ordered duplicate-free list. -/
def sadd (l : List String) (x : String) : List String :=
  if x ∈ l then l else l ++ [x]

/-- Python `set.discard`. -/
def sdiscard (l : List String) (x : String) : List String :=
  l.filter (fun y => !decide (y = x))

/-- `DLFLMesh`: the base `Mesh` fields (key stores, edge-key set, vertex
coordinates) plus the two DLFL maps `face_vertices` and `vertex_faces`. -/
structure DLFLMesh where
  vertex_keys : KeyStore
  face_keys : KeyStore
  edge_keys : Finset EdgeKey
  vertex_coordinates : List (String × Point3D)
  face_vertices : List (String × List VertexKey)
  vertex_faces : List (String × List FaceKey)
deriving DecidableEq

/-- `DLFLMesh()`: empty stores with prefixes `"v"` and `"f"`. -/
def empty_mesh : DLFLMesh :=
  ⟨KeyStore.mk0 "v", KeyStore.mk0 "f", ∅, [], [], []⟩

/-- `Corner`: vertex, face and the two incident edge keys. -/
structure Corner where
  vertex_key : VertexKey
  face_key : FaceKey
  edge_1_key : EdgeKey
  edge_2_key : EdgeKey
deriving DecidableEq

namespace DLFLMesh

def face_vertices_of (m : DLFLMesh) (f : FaceKey) : List VertexKey :=
  PyDict.getd m.face_vertices f []

def vertex_faces_of (m : DLFLMesh) (v : VertexKey) : List FaceKey :=
  PyDict.getd m.vertex_faces v []

/-- `DLFLMesh.create_vertex`: allocate a key, record the coordinate, give the
vertex an empty face rotation. -/
def create_vertex (m : DLFLMesh) (p : Point3D) : VertexKey × DLFLMesh :=
  let n := m.vertex_keys.new
  (n.1, { m with
    vertex_keys := n.2
    vertex_coordinates := PyDict.set m.vertex_coordinates n.1 p
    vertex_faces := PyDict.set m.vertex_faces n.1 [] })

/-- `DLFLMesh.create_face`: allocate a key with an empty boundary. -/
def create_face (m : DLFLMesh) : FaceKey × DLFLMesh :=
  let n := m.face_keys.new
  (n.1, { m with
    face_keys := n.2
    face_vertices := PyDict.set m.face_vertices n.1 [] })

/-- `DLFLMesh.delete_face`. -/
def delete_face (m : DLFLMesh) (f : FaceKey) : DLFLMesh :=
  { m with
    face_keys := m.face_keys.delete f
    face_vertices := PyDict.del m.face_vertices f }

/-- `Mesh.create_edge`: records `frozenset((v1, v2))` in the edge-key set. -/
def create_edge (m : DLFLMesh) (v1 v2 : VertexKey) : DLFLMesh :=
  { m with edge_keys := insert (edge_key v1 v2) m.edge_keys }

/-- `Mesh.delete_edge`. -/
def delete_edge_key (m : DLFLMesh) (e : EdgeKey) : DLFLMesh :=
  { m with edge_keys := m.edge_keys.erase e }

end DLFLMesh

/-! ### dlfl/operators.py -/

open DLFLMesh

/-- `corner_from_face_vertex`: note that the source computes *both*
`previous_vertex_key` and `next_vertex_key` with `circular_list.previous_item`
(the transcription keeps that behaviour). -/
def corner_from_face_vertex (m : DLFLMesh) (f : FaceKey) (v : VertexKey) : Corner :=
  let previous_vertex_key := circular_list.previous_item (face_vertices_of m f) v
  let next_vertex_key := circular_list.previous_item (face_vertices_of m f) v
  { vertex_key := v
    face_key := f
    edge_1_key := edge_key v next_vertex_key
    edge_2_key := edge_key previous_vertex_key v }

/-- `face_edges`: the boundary's cyclic vertex pairs as edge keys. -/
def face_edges (m : DLFLMesh) (f : FaceKey) : List EdgeKey :=
  (circular_list.pairs (face_vertices_of m f)).map (fun p => edge_key p.1 p.2)

/-- `create_point_sphere`: new vertex and face, the vertex the face's only
boundary member, the face the vertex's only rotation member, plus the
`mesh.create_edge(vertex_key, vertex_key)` call of the source. -/
def create_point_sphere (m : DLFLMesh) (pos : Point3D) : Corner × DLFLMesh :=
  let nv := create_vertex m pos
  let nf := create_face nv.2
  let m3 := { nf.2 with
    face_vertices := PyDict.set nf.2.face_vertices nf.1 (face_vertices_of nf.2 nf.1 ++ [nv.1]) }
  let m4 := { m3 with
    vertex_faces := PyDict.set m3.vertex_faces nv.1 (sadd (vertex_faces_of m3 nv.1) nf.1) }
  let m5 := create_edge m4 nv.1 nv.1
  (corner_from_face_vertex m5 nf.1 nv.1, m5)

/-- one iteration of the rotation-update loops: discard `old`, add `new`. -/
def replace_face_for (old nf : FaceKey) (vf : List (String × List FaceKey))
    (v : VertexKey) : List (String × List FaceKey) :=
  PyDict.set vf v (sadd (sdiscard (PyDict.getd vf v []) old) nf)

/-- `for vertex_key in boundary: discard(old); add(new)`. -/
def update_rotation (vf : List (String × List FaceKey)) (boundary : List VertexKey)
    (old nf : FaceKey) : List (String × List FaceKey) :=
  boundary.foldl (replace_face_for old nf) vf

/-- rotation update of the merge operators: discard both old faces, add the
new one. -/
def replace_faces_for (old1 old2 nf : FaceKey) (vf : List (String × List FaceKey))
    (v : VertexKey) : List (String × List FaceKey) :=
  PyDict.set vf v (sadd (sdiscard (sdiscard (PyDict.getd vf v []) old1) old2) nf)

/-- `_insert_edge_cofacial`. -/
def insert_edge_cofacial (m : DLFLMesh) (c1 c2 : Corner) :
    (FaceKey × FaceKey) × DLFLMesh :=
  let old_face_key := c1.face_key
  let n1 := create_face m
  let n2 := create_face n1.2
  let sp := circular_list.split_at_item
    (circular_list.circulated_to_item (face_vertices_of n2.2 old_face_key) c2.vertex_key)
    c1.vertex_key
  let m3 := { n2.2 with
    face_vertices := PyDict.set n2.2.face_vertices n1.1 (sp.1 ++ [c2.vertex_key]) }
  let m4 := { m3 with
    face_vertices := PyDict.set m3.face_vertices n2.1 (sp.2 ++ [c1.vertex_key]) }
  let m5 := { m4 with
    vertex_faces := update_rotation m4.vertex_faces (face_vertices_of m4 n1.1) old_face_key n1.1 }
  let m6 := { m5 with
    vertex_faces := update_rotation m5.vertex_faces (face_vertices_of m5 n2.1) old_face_key n2.1 }
  let m7 := delete_face m6 old_face_key
  let m8 := create_edge m7 c1.vertex_key c2.vertex_key
  ((n1.1, n2.1), m8)

/-- `_insert_edge_non_cofacial`. -/
def insert_edge_non_cofacial (m : DLFLMesh) (c1 c2 : Corner) :
    (FaceKey × FaceKey) × DLFLMesh :=
  let old_face_1_vertices := face_vertices_of m c1.face_key
  let old_face_2_vertices := face_vertices_of m c2.face_key
  let n := create_face m
  let new_face_vertex_keys :=
    circular_list.circulated_to_item old_face_1_vertices c1.vertex_key
    ++ circular_list.circulated_to_item old_face_2_vertices
        (circular_list.previous_item old_face_2_vertices c2.vertex_key)
    ++ (if 1 < old_face_2_vertices.length then [c2.vertex_key] else [])
    ++ (if 1 < old_face_1_vertices.length then [c1.vertex_key] else [])
  let m2 := { n.2 with
    face_vertices := PyDict.set n.2.face_vertices n.1 new_face_vertex_keys }
  let m3 := { m2 with
    vertex_faces := new_face_vertex_keys.foldl
      (replace_faces_for c1.face_key c2.face_key n.1) m2.vertex_faces }
  let m4 := delete_face m3 c1.face_key
  let m5 := delete_face m4 c2.face_key
  let m6 := create_edge m5 c1.vertex_key c2.vertex_key
  ((n.1, n.1), m6)

/-- `insert_edge` dispatch on `corner_1.face_key == corner_2.face_key`. -/
def insert_edge (m : DLFLMesh) (c1 c2 : Corner) : (FaceKey × FaceKey) × DLFLMesh :=
  if c1.face_key = c2.face_key then insert_edge_cofacial m c1 c2
  else insert_edge_non_cofacial m c1 c2

/-- `_delete_edge_cofacial`. -/
def delete_edge_cofacial (m : DLFLMesh) (c1 c2 : Corner) :
    (FaceKey × FaceKey) × DLFLMesh :=
  let old_face_key := c1.face_key
  let n1 := create_face m
  let n2 := create_face n1.2
  let sp := circular_list.split_at_pair
    (circular_list.circulated_to_pair (face_vertices_of n2.2 old_face_key)
      (c1.vertex_key, c2.vertex_key))
    (c2.vertex_key, c1.vertex_key)
  let b1 := if 1 < sp.1.length then sp.1.dropLast else sp.1
  let b2 := if 1 < sp.2.length then sp.2.dropLast else sp.2
  let m3 := { n2.2 with face_vertices := PyDict.set n2.2.face_vertices n1.1 b1 }
  let m4 := { m3 with face_vertices := PyDict.set m3.face_vertices n2.1 b2 }
  let m5 := { m4 with
    vertex_faces := update_rotation m4.vertex_faces (face_vertices_of m4 n1.1) old_face_key n1.1 }
  let m6 := { m5 with
    vertex_faces := update_rotation m5.vertex_faces (face_vertices_of m5 n2.1) old_face_key n2.1 }
  let m7 := delete_face m6 old_face_key
  let m8 := delete_edge_key m7 (edge_key c1.vertex_key c2.vertex_key)
  ((n1.1, n2.1), m8)

/-- `_delete_edge_non_cofacial` (the source creates the new face *before*
reading the two old boundaries). -/
def delete_edge_non_cofacial (m : DLFLMesh) (c1 c2 : Corner) :
    (FaceKey × FaceKey) × DLFLMesh :=
  let n := create_face m
  let old_face_1_vertices := face_vertices_of n.2 c1.face_key
  let old_face_2_vertices := face_vertices_of n.2 c2.face_key
  let new_face_vertex_keys :=
    (circular_list.circulated_to_item old_face_1_vertices c1.vertex_key).dropLast
    ++ (circular_list.circulated_to_item old_face_2_vertices c2.vertex_key).dropLast
  let m2 := { n.2 with
    face_vertices := PyDict.set n.2.face_vertices n.1 new_face_vertex_keys }
  let m3 := { m2 with
    vertex_faces := new_face_vertex_keys.foldl
      (replace_faces_for c1.face_key c2.face_key n.1) m2.vertex_faces }
  let m4 := delete_face m3 c1.face_key
  let m5 := delete_face m4 c2.face_key
  let m6 := delete_edge_key m5 (edge_key c1.vertex_key c2.vertex_key)
  ((n.1, n.1), m6)

/-- `delete_edge` dispatch on `corner_1.face_key == corner_2.face_key`. -/
def delete_edge (m : DLFLMesh) (c1 c2 : Corner) : (FaceKey × FaceKey) × DLFLMesh :=
  if c1.face_key = c2.face_key then delete_edge_cofacial m c1 c2
  else delete_edge_non_cofacial m c1 c2

/-- the `next(...)` expression of `vertex_trace`: the first face of the
vertex's rotation that contains the corner's `edge_1_key` and differs from
the corner's face (`None` models the `StopIteration` of an empty search). -/
def next_rotation_face (m : DLFLMesh) (v : VertexKey) (c : Corner) : Option FaceKey :=
  (vertex_faces_of m v).find?
    (fun f => decide (c.edge_1_key ∈ face_edges m f) && !decide (f = c.face_key))

/-- the `while current_corner != start_corner` loop of `vertex_trace`,
with explicit fuel (the source has no iteration bound); a `none` from the
`next(...)` search (Python `StopIteration`) aborts the run. -/
def vertex_trace_aux (m : DLFLMesh) (v : VertexKey) (start : Corner) :
    Nat → Corner → Option (List Corner)
  | 0, _ => none
  | fuel + 1, cur =>
    if cur = start then some []
    else
      (next_rotation_face m v cur).bind
        (fun f => (vertex_trace_aux m v start fuel (corner_from_face_vertex m f v)).map (cur :: ·))

/-- `vertex_trace`, consumed into a list: `some` is the list of yielded
corners for a terminating run, `none` a `StopIteration` escape or a run
still looping after `fuel` steps. -/
def vertex_trace (m : DLFLMesh) (v : VertexKey) (fuel : Nat) : Option (List Corner) :=
  match vertex_faces_of m v with
  | [] => none
  | f0 :: _ =>
    (next_rotation_face m v (corner_from_face_vertex m f0 v)).bind
      (fun f1 =>
        (vertex_trace_aux m v (corner_from_face_vertex m f0 v) fuel
          (corner_from_face_vertex m f1 v)).map (corner_from_face_vertex m f0 v :: ·))

/-! ### derived inspection helpers -/

/-- live face keys (positive count), in allocation order. -/
def live_faces (m : DLFLMesh) : List FaceKey := m.face_keys.live_keys

/-- live vertex keys (positive count), in allocation order. -/
def live_vertices (m : DLFLMesh) : List VertexKey := m.vertex_keys.live_keys

/-- total number of boundary-vertex entries over all live faces. -/
def total_boundary (m : DLFLMesh) : Nat :=
  ((live_faces m).map (fun f => (face_vertices_of m f).length)).sum

/-- `degree(vertex)`: the size of its face rotation. -/
def degree (m : DLFLMesh) (v : VertexKey) : Nat := (vertex_faces_of m v).length

/-- meshes reachable from the empty mesh by the three core operators
(`insert_edge` restricted by the spec's `SelfLoop` precondition to corners
with distinct vertices). -/
inductive Reachable : DLFLMesh → Prop
  | empty : Reachable empty_mesh
  | sphere (m : DLFLMesh) (p : Point3D) : Reachable m →
      Reachable (create_point_sphere m p).2
  | ins (m : DLFLMesh) (c1 c2 : Corner) : Reachable m →
      c1.vertex_key ≠ c2.vertex_key → Reachable (insert_edge m c1 c2).2
  | del (m : DLFLMesh) (c1 c2 : Corner) : Reachable m →
      Reachable (delete_edge m c1 c2).2

/-! ### the rotation walk of `vertex_trace`, face-level view -/

/-- one step of the rotation walk: the face reached from `f` around `v`. -/
def rotation_step (m : DLFLMesh) (v : VertexKey) (f : FaceKey) : Option FaceKey :=
  next_rotation_face m v (corner_from_face_vertex m f v)

/-- faces visited by the rotation walk from `f` until the start face `f0`
recurs (excluding `f0` itself), with explicit fuel. -/
def walk_to_start (m : DLFLMesh) (v : VertexKey) (f0 : FaceKey) :
    Nat → FaceKey → Option (List FaceKey)
  | 0, _ => none
  | fuel + 1, f =>
    if f = f0 then some []
    else
      (rotation_step m v f).bind
        (fun g => (walk_to_start m v f0 fuel g).map (f :: ·))

/-- the single-cycle rotation property at a vertex: the walk started from the
first incident face closes after visiting, exactly once, every face of the
vertex's rotation.  This is the manifold invariant `vertex_trace` relies on. -/
def rotation_closes (m : DLFLMesh) (v : VertexKey) : Bool :=
  match vertex_faces_of m v with
  | [] => false
  | f0 :: rest =>
    ((rotation_step m v f0).bind
      (fun f1 => walk_to_start m v f0 rest.length.succ f1)).elim false
      (fun mids => decide ((f0 :: mids).Perm (f0 :: rest)) && decide ((f0 :: mids).Nodup))

/-- every recorded edge key has one or two endpoint vertices. -/
def edges_small (m : DLFLMesh) : Prop :=
  ∀ e ∈ m.edge_keys, e.card = 1 ∨ e.card = 2

/-- the `i`-th face key `create_face` would generate next. -/
def gen_face_key (m : DLFLMesh) (i : Nat) : String :=
  m.face_keys.pfx ++ toString (m.face_keys.counter.length + m.face_keys.key_index_offset + i)

/-- the next `k` face keys `create_face` would generate. -/
def gen_face_keys (m : DLFLMesh) (k : Nat) : List String :=
  (List.range k).map (gen_face_key m)

/-- the next `k` generated face keys are pairwise distinct and unused, both
in the face key store and in the `face_vertices` map. -/
def fresh_faces (m : DLFLMesh) (k : Nat) : Prop :=
  (gen_face_keys m k).Nodup ∧
  ∀ f ∈ gen_face_keys m k,
    KeyStore.counter_has m.face_keys.counter f = false ∧ PyDict.has m.face_vertices f = false

/-- the face key store has pairwise-distinct dict keys and records face `f`
with count exactly 1. -/
def live_once (m : DLFLMesh) (f : FaceKey) : Prop :=
  (m.face_keys.counter.map (·.1)).Nodup ∧ KeyStore.counter_get m.face_keys.counter f = 1

/-- the boundary `_insert_edge_non_cofacial` computes for the merged face
(the concatenation of the two rotated old boundaries with the conditional
trailing copies of the two corner vertices). -/
def merged_boundary (m : DLFLMesh) (c1 c2 : Corner) : List VertexKey :=
  circular_list.circulated_to_item (face_vertices_of m c1.face_key) c1.vertex_key
  ++ circular_list.circulated_to_item (face_vertices_of m c2.face_key)
      (circular_list.previous_item (face_vertices_of m c2.face_key) c2.vertex_key)
  ++ (if 1 < (face_vertices_of m c2.face_key).length then [c2.vertex_key] else [])
  ++ (if 1 < (face_vertices_of m c1.face_key).length then [c1.vertex_key] else [])

/-! ### concrete meshes used by witnesses and counterexamples -/

/-- a mesh holding one point-sphere, built by the operator itself. -/
def sphere_mesh : DLFLMesh := (create_point_sphere empty_mesh (0, 0, 0)).2

/-- two point-spheres (`v1` at the origin, `v2` beside it). -/
def two_sphere_state : Corner × DLFLMesh :=
  let s1 := create_point_sphere empty_mesh (0, 0, 0)
  (s1.1, (create_point_sphere s1.2 (1, 0, 0)).2)

def two_sphere_mesh : DLFLMesh := two_sphere_state.2

/-- two point-spheres joined by an edge: one face `f3` with boundary
`[v1, v2]`. -/
def edge_mesh : DLFLMesh :=
  let s1 := create_point_sphere empty_mesh (0, 0, 0)
  let s2 := create_point_sphere s1.2 (1, 0, 0)
  (insert_edge s2.2 s1.1 (corner_from_face_vertex s2.2 "f2" "v2")).2

/-- `edge_mesh` plus a third point-sphere `v3` (face `f4`): the state used
by the C4 counterexample. -/
def c4_mesh : DLFLMesh := (create_point_sphere edge_mesh (0, 1, 0)).2

/-- the C4 round trip on `c4_mesh`: insert an edge between the point-sphere
corner of `v3` and the corner of `v2` on the merged face, then delete it
again with corners recomputed on the merged face. -/
def c4_trip : DLFLMesh :=
  let ins := insert_edge c4_mesh
    (corner_from_face_vertex c4_mesh "f4" "v3")
    (corner_from_face_vertex c4_mesh "f3" "v2")
  (delete_edge ins.2
    (corner_from_face_vertex ins.2 ins.1.1 "v3")
    (corner_from_face_vertex ins.2 ins.1.1 "v2")).2

/-- a single triangle face `f1 = [v1, v2, v3]` (used to exhibit the
`corner_from_face_vertex` successor bug). -/
def tri_mesh : DLFLMesh :=
  { vertex_keys := ⟨"v", 1, [("v1", 1), ("v2", 1), ("v3", 1)]⟩
    face_keys := ⟨"f", 1, [("f1", 1)]⟩
    edge_keys := ∅
    vertex_coordinates := [("v1", (0, 0, 0)), ("v2", (1, 0, 0)), ("v3", (0, 1, 0))]
    face_vertices := [("f1", ["v1", "v2", "v3"])]
    vertex_faces := [("v1", ["f1"]), ("v2", ["f1"]), ("v3", ["f1"])] }

/-- a double-sided triangle: faces `f1 = [v1, v2, v3]` and
`f2 = [v3, v2, v1]`; every vertex has a closed rotation of length 2. -/
def two_tri_mesh : DLFLMesh :=
  { vertex_keys := ⟨"v", 1, [("v1", 1), ("v2", 1), ("v3", 1)]⟩
    face_keys := ⟨"f", 1, [("f1", 1), ("f2", 1)]⟩
    edge_keys := {edge_key "v1" "v2", edge_key "v2" "v3", edge_key "v3" "v1"}
    vertex_coordinates := [("v1", (0, 0, 0)), ("v2", (1, 0, 0)), ("v3", (0, 1, 0))]
    face_vertices := [("f1", ["v1", "v2", "v3"]), ("f2", ["v3", "v2", "v1"])]
    vertex_faces := [("v1", ["f1", "f2"]), ("v2", ["f1", "f2"]), ("v3", ["f1", "f2"])] }

/-- two separate 2-gon faces `f1 = [v1, v2]` and `f2 = [v3, v4]` (used as the
non-cofacial C4 witness state). -/
def two_gon_mesh : DLFLMesh :=
  { vertex_keys := ⟨"v", 1, [("v1", 1), ("v2", 1), ("v3", 1), ("v4", 1)]⟩
    face_keys := ⟨"f", 1, [("f1", 1), ("f2", 1)]⟩
    edge_keys := {edge_key "v1" "v2", edge_key "v3" "v4"}
    vertex_coordinates :=
      [("v1", (0, 0, 0)), ("v2", (1, 0, 0)), ("v3", (0, 1, 0)), ("v4", (1, 1, 0))]
    face_vertices := [("f1", ["v1", "v2"]), ("f2", ["v3", "v4"])]
    vertex_faces := [("v1", ["f1"]), ("v2", ["f1"]), ("v3", ["f2"]), ("v4", ["f2"])] }

/-- one quadrilateral face `f1 = [v1, v2, v3, v4]` (double-sided; used as the
cofacial witness state). -/
def quad_mesh : DLFLMesh :=
  { vertex_keys := ⟨"v", 1, [("v1", 1), ("v2", 1), ("v3", 1), ("v4", 1)]⟩
    face_keys := ⟨"f", 1, [("f1", 1)]⟩
    edge_keys := {edge_key "v1" "v2", edge_key "v2" "v3", edge_key "v3" "v4", edge_key "v4" "v1"}
    vertex_coordinates :=
      [("v1", (0, 0, 0)), ("v2", (1, 0, 0)), ("v3", (1, 1, 0)), ("v4", (0, 1, 0))]
    face_vertices := [("f1", ["v1", "v2", "v3", "v4"])]
    vertex_faces := [("v1", ["f1"]), ("v2", ["f1"]), ("v3", ["f1"]), ("v4", ["f1"])] }

/-- the C4 round trip: `insert_edge(mesh, c1, c2)` followed by `delete_edge`
of the newly created edge, the two delete corners recomputed (per the spec)
after the insertion on the faces returned by `insert_edge`, at the two
original corner vertices. -/
def round_trip (m : DLFLMesh) (c1 c2 : Corner) : DLFLMesh :=
  (delete_edge (insert_edge m c1 c2).2
    (corner_from_face_vertex (insert_edge m c1 c2).2
      (insert_edge m c1 c2).1.1 c1.vertex_key)
    (corner_from_face_vertex (insert_edge m c1 c2).2
      (insert_edge m c1 c2).1.2 c2.vertex_key)).2

/-! ## Helper lemmas -/

namespace KeyStore

theorem find_of_has {c : List (String × Int)} {k : String} (h : counter_has c k = true) :
    ∃ e, c.find? (fun e => decide (e.1 = k)) = some e ∧ e.1 = k := by
  induction c with
  | nil => simp [counter_has] at h
  | cons a c ih =>
    by_cases hak : a.1 = k
    · exact ⟨a, by simp [List.find?_cons, hak], hak⟩
    · have h' : counter_has c k = true := by
        simp [counter_has] at h ⊢
        rcases h with h | h
        · exact absurd h hak
        · exact h
      rcases ih h' with ⟨e, he, hek⟩
      exact ⟨e, by simp [List.find?_cons, hak, he], hek⟩

theorem find_none_of_not_has {c : List (String × Int)} {k : String}
    (h : counter_has c k = false) : c.find? (fun e => decide (e.1 = k)) = none := by
  rw [List.find?_eq_none]
  intro e he
  simp [counter_has, List.any_eq_true] at h
  simpa using h e.1 e.2 he

theorem counter_get_add (c : List (String × Int)) (k : String) (n : Int) :
    counter_get (counter_add c k n) k = counter_get c k + n := by
  by_cases h : counter_has c k = true
  · rcases find_of_has h with ⟨e, he, hek⟩
    have hmap : (c.map (fun e => if e.1 = k then (e.1, e.2 + n) else e)).find?
        (fun e => decide (e.1 = k)) = some (e.1, e.2 + n) := by
      have hcomp : ∀ e' : String × Int,
          (fun e : String × Int => decide (e.1 = k))
            ((fun e : String × Int => if e.1 = k then (e.1, e.2 + n) else e) e')
          = decide (e'.1 = k) := by
        intro e'
        by_cases h' : e'.1 = k <;> simp [h']
      rw [List.find?_map]
      simp only [Function.comp_def, hcomp]
      rw [he]
      simp [hek]
    simp [counter_add, h, counter_get, hmap, he]
  · have h' : counter_has c k = false := by simpa using h
    have hnone := find_none_of_not_has h'
    simp [counter_add, h', counter_get, List.find?_append, hnone]

theorem counter_get_add_ne (c : List (String × Int)) {k k' : String} (n : Int)
    (h : k' ≠ k) : counter_get (counter_add c k n) k' = counter_get c k' := by
  by_cases hh : counter_has c k = true
  · have hcomp : ∀ e' : String × Int,
        (fun e : String × Int => decide (e.1 = k'))
          ((fun e : String × Int => if e.1 = k then (e.1, e.2 + n) else e) e')
        = decide (e'.1 = k') := by
      intro e'
      by_cases h1 : e'.1 = k <;> simp [h1]
    have : (c.map (fun e => if e.1 = k then (e.1, e.2 + n) else e)).find?
        (fun e => decide (e.1 = k'))
        = (c.find? (fun e => decide (e.1 = k'))).map
            (fun e => if e.1 = k then (e.1, e.2 + n) else e) := by
      rw [List.find?_map]
      simp only [Function.comp_def, hcomp]
    simp only [counter_add, hh, if_true, counter_get, this]
    cases hfind : c.find? (fun e => decide (e.1 = k')) with
    | none => simp
    | some e =>
      have hek : e.1 = k' := by simpa using List.find?_some hfind
      simp [hek, h.symm ∘ Eq.symm, show ¬ (k' = k) from h]
  · have h' : counter_has c k = false := by simpa using hh
    simp [counter_add, h', counter_get, List.find?_append]
    cases hfind : c.find? (fun e => decide (e.1 = k')) with
    | none => simp [show ¬ (k = k') from fun hk => h hk.symm]
    | some e => simp

end KeyStore

/-! helper lemmas about `edge_keys` through the operators -/

theorem insert_edge_edge_keys (m : DLFLMesh) (c1 c2 : Corner) :
    (insert_edge m c1 c2).2.edge_keys
      = insert (edge_key c1.vertex_key c2.vertex_key) m.edge_keys := by
  unfold insert_edge
  split <;> rfl

theorem delete_edge_edge_keys (m : DLFLMesh) (c1 c2 : Corner) :
    (delete_edge m c1 c2).2.edge_keys
      = m.edge_keys.erase (edge_key c1.vertex_key c2.vertex_key) := by
  unfold delete_edge
  split <;> rfl

theorem create_point_sphere_edge_keys (m : DLFLMesh) (p : Point3D) :
    (create_point_sphere m p).2.edge_keys
      = insert (edge_key m.vertex_keys.next_key m.vertex_keys.next_key) m.edge_keys := rfl

/-! ## C10 -/

/-- C10: `insert_edge` and `delete_edge` never touch the vertex key store or
the vertex-coordinate map: the live vertex identifiers and all coordinates
are left unchanged by both operators, on every mesh and every corner pair. -/
theorem insert_delete_vertex_frame (m : DLFLMesh) (c1 c2 : Corner) :
    (insert_edge m c1 c2).2.vertex_keys = m.vertex_keys ∧
    (insert_edge m c1 c2).2.vertex_coordinates = m.vertex_coordinates ∧
    (delete_edge m c1 c2).2.vertex_keys = m.vertex_keys ∧
    (delete_edge m c1 c2).2.vertex_coordinates = m.vertex_coordinates := by
  refine ⟨?_, ?_, ?_, ?_⟩ <;>
    (first
      | (unfold insert_edge; split <;> rfl)
      | (unfold delete_edge; split <;> rfl))

/-! ## C7 -/

/-- C7 counterexample: freeing the never-allocated identifier `"v1"` on a
fresh store does not fail (the claim demands an `InvalidHandle` error):
`KeyStore.delete` unconditionally subtracts, returning a store that records
`"v1"` with count `-1`, still not live. -/
theorem keystore_delete_never_allocated_silent :
    KeyStore.delete (KeyStore.mk0 "v") "v1" = ⟨"v", 1, [("v1", -1)]⟩ ∧
    KeyStore.mem_store (KeyStore.delete (KeyStore.mk0 "v") "v1") "v1" = false := by
  constructor
  · rfl
  · decide

/-- C7 amended: freeing an identifier that was never allocated or is no
longer live silently succeeds — `delete` always returns the store with the
identifier's count decremented by one (going negative for never-allocated
keys), and the identifier remains non-live; no error is raised. -/
theorem keystore_delete_silent (s : KeyStore) (k : String)
    (h : KeyStore.mem_store s k = false) :
    s.delete k = { s with counter := KeyStore.counter_add s.counter k (-1) } ∧
    KeyStore.counter_get (s.delete k).counter k
      = KeyStore.counter_get s.counter k - 1 ∧
    KeyStore.mem_store (s.delete k) k = false := by
  refine ⟨rfl, ?_, ?_⟩
  · have := KeyStore.counter_get_add s.counter k (-1)
    simpa [KeyStore.delete, sub_eq_add_neg] using this
  · have hle : KeyStore.counter_get s.counter k ≤ 0 := by
      simpa [KeyStore.mem_store] using h
    have := KeyStore.counter_get_add s.counter k (-1)
    simp only [KeyStore.mem_store, KeyStore.delete, this, decide_eq_false_iff_not, not_lt]
    omega

/-- C7 witness: the amended statement applies to deleting `"v9"` from a
one-element store. -/
theorem keystore_delete_silent_witness :
    KeyStore.mem_store ⟨"v", 1, [("v1", 1)]⟩ "v9" = false ∧
    (KeyStore.delete ⟨"v", 1, [("v1", 1)]⟩ "v9"
        = { (⟨"v", 1, [("v1", 1)]⟩ : KeyStore) with
            counter := KeyStore.counter_add [("v1", 1)] "v9" (-1) } ∧
      KeyStore.counter_get (KeyStore.delete ⟨"v", 1, [("v1", 1)]⟩ "v9").counter "v9"
        = KeyStore.counter_get [("v1", 1)] "v9" - 1 ∧
      KeyStore.mem_store (KeyStore.delete ⟨"v", 1, [("v1", 1)]⟩ "v9") "v9" = false) :=
  ⟨by decide, keystore_delete_silent ⟨"v", 1, [("v1", 1)]⟩ "v9" (by decide)⟩

/-! ## C5 -/

/-- C5 counterexample: `create_point_sphere` on the empty mesh records the
degenerate edge `frozenset({"v1"})` — an edge record whose endpoint set has
cardinality 1, not two distinct vertices; the claim says a point-sphere
contributes no edge record. -/
theorem create_point_sphere_self_edge_record :
    (({"v1"} : Finset String) ∈ sphere_mesh.edge_keys) ∧
    (({"v1"} : Finset String)).card = 1 := by
  constructor
  · show ({"v1"} : Finset String) ∈ insert (edge_key "v1" "v1") (∅ : Finset EdgeKey)
    simp [edge_key]
  · rfl

/-- C5 amended: in every mesh reachable from the empty mesh by the core
operators (with `insert_edge` obeying the spec's `SelfLoop` precondition),
every recorded edge key has one or two endpoint vertices: two for edges
created by `insert_edge` between distinct vertices, and one for the
degenerate self-record `{v}` that `create_point_sphere` stores for a new
point-sphere. -/
theorem reachable_edge_card (m : DLFLMesh) (h : Reachable m) : edges_small m := by
  induction h with
  | empty =>
    intro e he
    exact absurd he (Finset.not_mem_empty e)
  | sphere m p _ ih =>
    intro e he
    rw [create_point_sphere_edge_keys] at he
    rcases Finset.mem_insert.1 he with rfl | hm
    · left
      simp [edge_key]
    · exact ih e hm
  | ins m c1 c2 _ hne ih =>
    intro e he
    rw [insert_edge_edge_keys] at he
    rcases Finset.mem_insert.1 he with rfl | hm
    · right
      simpa [edge_key] using Finset.card_pair hne
    · exact ih e hm
  | del m c1 c2 _ ih =>
    intro e he
    rw [delete_edge_edge_keys] at he
    exact ih e (Finset.mem_of_mem_erase he)

/-- C5 witness: the amended invariant holds on the one-point-sphere mesh. -/
theorem reachable_edge_card_witness : Reachable sphere_mesh ∧ edges_small sphere_mesh :=
  ⟨Reachable.sphere empty_mesh (0, 0, 0) Reachable.empty,
    reachable_edge_card sphere_mesh (Reachable.sphere empty_mesh (0, 0, 0) Reachable.empty)⟩

/-! ## C1 -/

/-- C1 evidence: on the triangle face `f1 = [v1, v2, v3]`, the corner of
`v1` should have outgoing edge `{v1, v2}` (successor `v2`), but the code
computes `next_vertex_key` with `previous_item`, so both edge fields use the
predecessor `v3`: `edge_1_key = {v1, v3} ≠ {v1, v2}`. -/
theorem corner_from_face_vertex_bug :
    (corner_from_face_vertex tri_mesh "f1" "v1").edge_1_key = edge_key "v1" "v3" ∧
    (corner_from_face_vertex tri_mesh "f1" "v1").edge_2_key = edge_key "v3" "v1" ∧
    edge_key "v1" "v3" ≠ edge_key "v1" "v2" := by
  refine ⟨rfl, rfl, ?_⟩
  intro hcontra
  have : ("v3" : String) ∈ edge_key "v1" "v2" := by
    rw [← hcontra]
    simp [edge_key]
  simp [edge_key] at this

/-! ## PyDict helper lemmas -/

namespace PyDict

variable {β : Type}

theorem dict_find_of_has {m : List (String × β)} {k : String} (h : has m k = true) :
    ∃ e, m.find? (fun e => decide (e.1 = k)) = some e ∧ e.1 = k := by
  induction m with
  | nil => simp [has] at h
  | cons a m ih =>
    by_cases hak : a.1 = k
    · exact ⟨a, by simp [List.find?_cons, hak], hak⟩
    · have h' : has m k = true := by
        simp [has] at h ⊢
        rcases h with h | h
        · exact absurd h hak
        · exact h
      rcases ih h' with ⟨e, he, hek⟩
      exact ⟨e, by simp [List.find?_cons, hak, he], hek⟩

theorem dict_find_none_of_not_has {m : List (String × β)} {k : String}
    (h : has m k = false) : m.find? (fun e => decide (e.1 = k)) = none := by
  rw [List.find?_eq_none]
  intro e he
  simp [has, List.any_eq_true] at h
  simpa using h e.1 e.2 he

theorem map_set_key (k : String) (v : β) (e : String × β) :
    ((if e.1 = k then (k, v) else e) : String × β).1 = e.1 := by
  by_cases h1 : e.1 = k <;> simp [h1]

theorem pred_comp_set (k k' : String) (v : β) :
    ((fun e : String × β => decide (e.1 = k')) ∘ fun e => if e.1 = k then (k, v) else e)
      = (fun e : String × β => decide (e.1 = k')) := by
  funext e
  simp [Function.comp_def, map_set_key]

theorem find?_map_set (m : List (String × β)) (k k' : String) (v : β) :
    (m.map (fun e => if e.1 = k then (k, v) else e)).find? (fun e => decide (e.1 = k'))
      = (m.find? (fun e => decide (e.1 = k'))).map (fun e => if e.1 = k then (k, v) else e) := by
  rw [List.find?_map, pred_comp_set]

theorem getd_set_self (m : List (String × β)) (k : String) (v d : β) :
    getd (set m k v) k d = v := by
  by_cases h : has m k = true
  · rcases dict_find_of_has h with ⟨e, he, hek⟩
    simp only [set, h, if_true, getd, find?_map_set, he]
    simp [hek]
  · have h' : has m k = false := by simpa using h
    have hnone := dict_find_none_of_not_has h'
    simp [set, h', getd, List.find?_append, hnone]

theorem getd_set_ne (m : List (String × β)) {k k' : String} (v d : β)
    (h : k' ≠ k) : getd (set m k v) k' d = getd m k' d := by
  by_cases hh : has m k = true
  · simp only [set, hh, if_true, getd, find?_map_set]
    cases hfind : m.find? (fun e => decide (e.1 = k')) with
    | none => simp
    | some e =>
      have hek : e.1 = k' := by simpa using List.find?_some hfind
      have : ¬ (e.1 = k) := by
        rw [hek]
        exact h
      simp [this]
  · have h' : has m k = false := by simpa using hh
    have hlast : ([((k, v) : String × β)].find? (fun e => decide (e.1 = k'))) = none := by
      simp [show ¬ (k = k') from fun hk => h hk.symm]
    simp [set, h', getd, List.find?_append, hlast]

theorem getd_del_ne (m : List (String × β)) {k k' : String} (d : β)
    (h : k' ≠ k) : getd (del m k) k' d = getd m k' d := by
  have key : (del m k).find? (fun e => decide (e.1 = k'))
      = m.find? (fun e => decide (e.1 = k')) := by
    induction m with
    | nil => rfl
    | cons a m ih =>
      by_cases hak : a.1 = k
      · have hdrop : del (a :: m) k = del m k := by
          simp [del, List.filter_cons, hak]
        have hak' : decide (a.1 = k') = false := by
          rw [hak]
          simp
          exact fun hk => h hk.symm
        rw [hdrop, List.find?_cons, hak', ih]
      · have hkeep : del (a :: m) k = a :: del m k := by
          simp [del, List.filter_cons, hak]
        rw [hkeep, List.find?_cons, List.find?_cons]
        cases h2 : decide (a.1 = k') with
        | true => rfl
        | false => exact ih
  simp [getd, key]

theorem has_cons_ne {a : String × β} {m : List (String × β)} {k : String}
    (h : ¬ (a.1 = k)) : has (a :: m) k = has m k := by
  simp [has, h]

theorem pred_any_comp_set (k k' : String) (v : β) :
    ((fun e : String × β => decide (e.1 = k')) ∘ fun e => if e.1 = k then (k, v) else e)
      = (fun e : String × β => decide (e.1 = k')) := pred_comp_set k k' v

theorem has_set_ne (m : List (String × β)) {k k' : String} (v : β)
    (h : k' ≠ k) : has (set m k v) k' = has m k' := by
  by_cases hh : has m k = true
  · show has (if has m k = true then _ else _) k' = _
    rw [if_pos hh]
    show List.any _ _ = _
    rw [List.any_map, pred_comp_set]
    rfl
  · have h' : has m k = false := by simpa using hh
    rw [show set m k v = m ++ [(k, v)] from by simp [set, h']]
    simp [has, List.any_append, show ¬ (k = k') from fun hk => h hk.symm]

end PyDict

/-! ## counter live-keys lemmas -/

namespace KeyStore

theorem not_has_iff {c : List (String × Int)} {k : String} :
    counter_has c k = false ↔ ∀ e ∈ c, e.1 ≠ k := by
  simp [counter_has, List.any_eq_false]

theorem counter_add_absent {c : List (String × Int)} {k : String} (n : Int)
    (h : counter_has c k = false) : counter_add c k n = c ++ [(k, n)] := by
  simp [counter_add, h]

theorem counter_add_present {c : List (String × Int)} {k : String} (n : Int)
    (h : counter_has c k = true) :
    counter_add c k n = c.map (fun e => if e.1 = k then (e.1, e.2 + n) else e) := by
  simp [counter_add, h]

theorem counter_pred_comp (k k' : String) (n : Int) :
    ((fun e : String × Int => decide (e.1 = k')) ∘
        fun e : String × Int => if e.1 = k then (e.1, e.2 + n) else e)
      = (fun e : String × Int => decide (e.1 = k')) := by
  funext e
  by_cases h1 : e.1 = k <;> simp [Function.comp_def, h1]

theorem counter_has_add_self (c : List (String × Int)) (k : String) (n : Int) :
    counter_has (counter_add c k n) k = true := by
  by_cases h : counter_has c k = true
  · rw [counter_add_present n h]
    show List.any _ _ = true
    rw [List.any_map, counter_pred_comp]
    exact h
  · rw [counter_add_absent n (by simpa using h)]
    simp [counter_has, List.any_append]

theorem counter_has_add_ne (c : List (String × Int)) {k k' : String} (n : Int)
    (h : k' ≠ k) : counter_has (counter_add c k n) k' = counter_has c k' := by
  by_cases hh : counter_has c k = true
  · rw [counter_add_present n hh]
    show List.any _ _ = _
    rw [List.any_map, counter_pred_comp]
    rfl
  · rw [counter_add_absent n (by simpa using hh)]
    simp [counter_has, List.any_append, show ¬ (k = k') from fun hk => h hk.symm]

theorem counter_live_append_pos (c : List (String × Int)) (k : String) :
    counter_live (c ++ [(k, 1)]) = counter_live c ++ [k] := by
  simp [counter_live, List.filter_append]

theorem keys_counter_add_absent {c : List (String × Int)} {k : String} (n : Int)
    (h : counter_has c k = false) :
    (counter_add c k n).map (·.1) = c.map (·.1) ++ [k] := by
  simp [counter_add_absent n h]

theorem keys_counter_add_present {c : List (String × Int)} {k : String} (n : Int)
    (h : counter_has c k = true) :
    (counter_add c k n).map (·.1) = c.map (·.1) := by
  simp only [counter_add, h, if_true, List.map_map]
  apply List.map_congr_left
  intro e _
  by_cases h1 : e.1 = k <;> simp [h1]

theorem counter_live_cons_pos {a : String × Int} {c : List (String × Int)}
    (h : (0 : Int) < a.2) : counter_live (a :: c) = a.1 :: counter_live c := by
  simp [counter_live, List.filter_cons, h]

theorem counter_live_cons_nonpos {a : String × Int} {c : List (String × Int)}
    (h : ¬ ((0 : Int) < a.2)) : counter_live (a :: c) = counter_live c := by
  simp [counter_live, List.filter_cons, h]

theorem counter_live_sub_one {c : List (String × Int)} {k : String}
    (hnodup : (c.map (·.1)).Nodup) (hget : counter_get c k = 1)
    (hhas : counter_has c k = true) :
    counter_live (counter_add c k (-1)) = (counter_live c).erase k := by
  induction c with
  | nil => simp [counter_has] at hhas
  | cons a c ih =>
    have hnodup2 : a.1 ∉ c.map (·.1) ∧ (c.map (·.1)).Nodup := by simpa using hnodup
    by_cases hak : a.1 = k
    · have hknotin : ∀ e ∈ c, ¬ (e.1 = k) := by
        intro e he hek
        have : a.1 = e.1 := hak.trans hek.symm
        exact hnodup2.1 (this ▸ List.mem_map_of_mem (·.1) he)
      have hmapid : c.map (fun e => if e.1 = k then (e.1, e.2 + (-1)) else e) = c := by
        apply (List.map_congr_left ?_).trans (List.map_id c)
        intro e he
        simp [hknotin e he]
      have ha2 : a.2 = 1 := by
        simpa [counter_get, List.find?_cons, hak] using hget
      have hadd : counter_add (a :: c) k (-1) = (a.1, a.2 + (-1)) :: c := by
        rw [counter_add_present (-1) hhas, List.map_cons, hmapid, if_pos hak]
      rw [hadd]
      have hzero : a.2 + (-1) = 0 := by rw [ha2]; norm_num
      rw [hzero]
      have hLHS : counter_live ((a.1, (0 : Int)) :: c) = counter_live c :=
        counter_live_cons_nonpos (by norm_num)
      have hRHS : (counter_live (a :: c)).erase k = counter_live c := by
        rw [counter_live_cons_pos (by rw [ha2]; norm_num), hak, List.erase_cons_head]
      rw [hLHS, hRHS]
    · have hget2 : counter_get c k = 1 := by
        simpa [counter_get, List.find?_cons, hak] using hget
      have hhas2 : counter_has c k = true := by
        simpa [counter_has, hak] using hhas
      have hadd : counter_add (a :: c) k (-1) = a :: counter_add c k (-1) := by
        rw [counter_add_present (-1) hhas, counter_add_present (-1) hhas2, List.map_cons,
          if_neg hak]
      rw [hadd]
      by_cases ha2 : (0 : Int) < a.2
      · rw [counter_live_cons_pos ha2, counter_live_cons_pos ha2,
          List.erase_cons_tail (by simpa using hak), ih hnodup2.2 hget2 hhas2]
      · rw [counter_live_cons_nonpos ha2, counter_live_cons_nonpos ha2,
          ih hnodup2.2 hget2 hhas2]

theorem mem_counter_live {c : List (String × Int)} {k : String}
    (hget : counter_get c k = 1) (hhas : counter_has c k = true) :
    k ∈ counter_live c := by
  induction c with
  | nil => simp [counter_has] at hhas
  | cons a c ih =>
    by_cases hak : a.1 = k
    · have ha2 : a.2 = 1 := by
        simpa [counter_get, List.find?_cons, hak] using hget
      rw [counter_live_cons_pos (by rw [ha2]; norm_num), hak]
      exact List.mem_cons_self k _
    · have hget2 : counter_get c k = 1 := by
        simpa [counter_get, List.find?_cons, hak] using hget
      have hhas2 : counter_has c k = true := by
        simpa [counter_has, hak] using hhas
      by_cases ha2 : (0 : Int) < a.2
      · rw [counter_live_cons_pos ha2]
        exact List.mem_cons_of_mem _ (ih hget2 hhas2)
      · rw [counter_live_cons_nonpos ha2]
        exact ih hget2 hhas2

theorem counter_live_subset_keys {c : List (String × Int)} {k : String}
    (h : k ∈ counter_live c) : k ∈ c.map (·.1) := by
  simp only [counter_live, List.mem_map, List.mem_filter] at h
  rcases h with ⟨e, ⟨he, _⟩, rfl⟩
  exact List.mem_map_of_mem (·.1) he

theorem counter_live_nodup {c : List (String × Int)}
    (hnodup : (c.map (·.1)).Nodup) : (counter_live c).Nodup := by
  have hsub : ((c.filter (fun e => decide (0 < e.2))).map (·.1)).Sublist (c.map (·.1)) :=
    List.Sublist.map (·.1) (List.filter_sublist c)
  exact hnodup.sublist hsub

end KeyStore

/-! ## circular-list length and rotation lemmas -/

namespace circular_list

theorem circulated_to_eq_rotate {α : Type} (l : List α) (i : Nat) :
    circulated_to l i = l.rotate (i + 1) := by
  cases hl : l with
  | nil => simp [circulated_to]
  | cons a t =>
    rw [← hl]
    have hpos : 0 < l.length := by rw [hl]; simp
    have hj : (i + 1) % l.length ≤ l.length := le_of_lt (Nat.mod_lt _ hpos)
    rw [circulated_to, ← List.rotate_mod, List.rotate_eq_drop_append_take hj]

theorem length_circulated_to {α : Type} (l : List α) (i : Nat) :
    (circulated_to l i).length = l.length := by
  rw [circulated_to_eq_rotate, List.length_rotate]

theorem circulated_to_item_isRotated {α : Type} [DecidableEq α] [Inhabited α]
    (l : List α) (x : α) : circulated_to_item l x ~r l := by
  rw [circulated_to_item, circulated_to_eq_rotate]
  exact List.IsRotated.symm ⟨index_of l x + 1, rfl⟩

theorem length_circulated_to_item {α : Type} [DecidableEq α] [Inhabited α]
    (l : List α) (x : α) :
    (circulated_to_item l x).length = l.length := length_circulated_to l _

theorem split_at_lengths {α : Type} (l : List α) (i : Nat) :
    (split_at l i).1.length + (split_at l i).2.length = l.length := by
  have h := congrArg List.length (List.take_append_drop (i % l.length) l)
  rw [List.length_append] at h
  exact h

end circular_list

/-! ## generated-key and freshness lemmas -/

theorem not_mem_keys_of_not_has {c : List (String × Int)} {k : String}
    (h : KeyStore.counter_has c k = false) : k ∉ c.map (·.1) := by
  intro hmem
  rcases List.mem_map.1 hmem with ⟨e, he, hek⟩
  exact (KeyStore.not_has_iff.1 h) e he hek

theorem has_of_get_one {c : List (String × Int)} {k : String}
    (h : KeyStore.counter_get c k = 1) : KeyStore.counter_has c k = true := by
  by_cases hh : KeyStore.counter_has c k = true
  · exact hh
  · have := KeyStore.find_none_of_not_has (by simpa using hh)
    rw [KeyStore.counter_get, this] at h
    simp at h

theorem ne_of_get_one_not_has {c : List (String × Int)} {f k : String}
    (hget : KeyStore.counter_get c f = 1)
    (hfresh : KeyStore.counter_has c k = false) : f ≠ k := by
  intro hfk
  rw [hfk] at hget
  rw [has_of_get_one hget] at hfresh
  exact absurd hfresh (by simp)

theorem gen_face_key_zero (m : DLFLMesh) :
    gen_face_key m 0 = m.face_keys.next_key := by
  simp [gen_face_key, KeyStore.next_key]

theorem create_face_fst (m : DLFLMesh) : (create_face m).1 = m.face_keys.next_key := rfl

theorem next_key_after_create (m : DLFLMesh)
    (h : KeyStore.counter_has m.face_keys.counter (gen_face_key m 0) = false) :
    (create_face m).2.face_keys.next_key = gen_face_key m 1 := by
  have hc : (create_face m).2.face_keys.counter
      = KeyStore.counter_add m.face_keys.counter m.face_keys.next_key 1 := rfl
  have habs : (create_face m).2.face_keys.counter
      = m.face_keys.counter ++ [(m.face_keys.next_key, 1)] := by
    rw [hc, KeyStore.counter_add_absent 1 (by rw [gen_face_key_zero] at h; exact h)]
  show (create_face m).2.face_keys.pfx
      ++ toString ((create_face m).2.face_keys.counter.length
          + (create_face m).2.face_keys.key_index_offset) = _
  rw [habs]
  show m.face_keys.pfx ++ toString ((m.face_keys.counter ++ _).length
      + m.face_keys.key_index_offset) = _
  rw [List.length_append]
  show _ ++ toString (m.face_keys.counter.length + 1 + m.face_keys.key_index_offset) = _
  rw [gen_face_key]
  congr 1
  congr 1
  omega

/-! ## effect of `_insert_edge_non_cofacial` -/

theorem insert_edge_non_cofacial_effect (m : DLFLMesh) (c1 c2 : Corner)
    (hnodup : (m.face_keys.counter.map (·.1)).Nodup)
    (hget1 : KeyStore.counter_get m.face_keys.counter c1.face_key = 1)
    (hget2 : KeyStore.counter_get m.face_keys.counter c2.face_key = 1)
    (hne : c1.face_key ≠ c2.face_key)
    (hfresh : KeyStore.counter_has m.face_keys.counter (gen_face_key m 0) = false) :
    (insert_edge_non_cofacial m c1 c2).1 = (gen_face_key m 0, gen_face_key m 0) ∧
    live_faces (insert_edge_non_cofacial m c1 c2).2
      = (((live_faces m).erase c1.face_key).erase c2.face_key) ++ [gen_face_key m 0] ∧
    face_vertices_of (insert_edge_non_cofacial m c1 c2).2 (gen_face_key m 0)
      = merged_boundary m c1 c2 ∧
    (∀ f, f ≠ c1.face_key → f ≠ c2.face_key → f ≠ gen_face_key m 0 →
      face_vertices_of (insert_edge_non_cofacial m c1 c2).2 f = face_vertices_of m f) := by
  have hk0 : gen_face_key m 0 = m.face_keys.next_key := gen_face_key_zero m
  have hne1k : c1.face_key ≠ gen_face_key m 0 := ne_of_get_one_not_has hget1 hfresh
  have hne2k : c2.face_key ≠ gen_face_key m 0 := ne_of_get_one_not_has hget2 hfresh
  have hcounter : (insert_edge_non_cofacial m c1 c2).2.face_keys.counter
      = KeyStore.counter_add (KeyStore.counter_add
          (KeyStore.counter_add m.face_keys.counter m.face_keys.next_key 1)
          c1.face_key (-1)) c2.face_key (-1) := rfl
  have hfv : (insert_edge_non_cofacial m c1 c2).2.face_vertices
      = PyDict.del (PyDict.del
          (PyDict.set (PyDict.set m.face_vertices m.face_keys.next_key [])
            m.face_keys.next_key (merged_boundary m c1 c2))
          c1.face_key) c2.face_key := rfl
  have hret : (insert_edge_non_cofacial m c1 c2).1
      = (m.face_keys.next_key, m.face_keys.next_key) := rfl
  refine ⟨by rw [hret, hk0], ?_, ?_, ?_⟩
  · show KeyStore.counter_live (insert_edge_non_cofacial m c1 c2).2.face_keys.counter = _
    rw [hcounter, ← hk0]
    have hstep1 : KeyStore.counter_add m.face_keys.counter (gen_face_key m 0) 1
        = m.face_keys.counter ++ [(gen_face_key m 0, 1)] :=
      KeyStore.counter_add_absent 1 hfresh
    have hlive1 : KeyStore.counter_live
        (KeyStore.counter_add m.face_keys.counter (gen_face_key m 0) 1)
        = KeyStore.counter_live m.face_keys.counter ++ [gen_face_key m 0] := by
      rw [hstep1, KeyStore.counter_live_append_pos]
    have hkeys1 : ((KeyStore.counter_add m.face_keys.counter (gen_face_key m 0) 1).map
        (·.1)).Nodup := by
      rw [hstep1]
      simp only [List.map_append, List.map_cons, List.map_nil]
      rw [List.nodup_append]
      exact ⟨hnodup, List.nodup_singleton _, by
        intro a ha hb
        simp at hb
        exact not_mem_keys_of_not_has hfresh (hb ▸ ha)⟩
    have hget1' : KeyStore.counter_get
        (KeyStore.counter_add m.face_keys.counter (gen_face_key m 0) 1) c1.face_key = 1 := by
      rw [KeyStore.counter_get_add_ne _ _ hne1k]
      exact hget1
    have hhas1' : KeyStore.counter_has
        (KeyStore.counter_add m.face_keys.counter (gen_face_key m 0) 1) c1.face_key = true := by
      rw [KeyStore.counter_has_add_ne _ _ hne1k]
      exact has_of_get_one hget1
    have hlive2 : KeyStore.counter_live (KeyStore.counter_add
        (KeyStore.counter_add m.face_keys.counter (gen_face_key m 0) 1) c1.face_key (-1))
        = ((KeyStore.counter_live m.face_keys.counter).erase c1.face_key)
            ++ [gen_face_key m 0] := by
      rw [KeyStore.counter_live_sub_one hkeys1 hget1' hhas1', hlive1,
        List.erase_append_left _ (KeyStore.mem_counter_live hget1 (has_of_get_one hget1))]
    have hkeys2 : ((KeyStore.counter_add (KeyStore.counter_add m.face_keys.counter
        (gen_face_key m 0) 1) c1.face_key (-1)).map (·.1)).Nodup := by
      rw [KeyStore.keys_counter_add_present _ hhas1']
      exact hkeys1
    have hget2' : KeyStore.counter_get (KeyStore.counter_add (KeyStore.counter_add
        m.face_keys.counter (gen_face_key m 0) 1) c1.face_key (-1)) c2.face_key = 1 := by
      rw [KeyStore.counter_get_add_ne _ _ hne.symm, KeyStore.counter_get_add_ne _ _ hne2k]
      exact hget2
    have hhas2' : KeyStore.counter_has (KeyStore.counter_add (KeyStore.counter_add
        m.face_keys.counter (gen_face_key m 0) 1) c1.face_key (-1)) c2.face_key = true := by
      rw [KeyStore.counter_has_add_ne _ _ hne.symm, KeyStore.counter_has_add_ne _ _ hne2k]
      exact has_of_get_one hget2
    rw [KeyStore.counter_live_sub_one hkeys2 hget2' hhas2', hlive2,
      List.erase_append_left _ (List.mem_erase_of_ne hne.symm |>.2
        (KeyStore.mem_counter_live hget2 (has_of_get_one hget2)))]
    rfl
  · show PyDict.getd (insert_edge_non_cofacial m c1 c2).2.face_vertices (gen_face_key m 0) [] = _
    rw [hfv, ← hk0]
    rw [PyDict.getd_del_ne _ _ (Ne.symm hne2k), PyDict.getd_del_ne _ _ (Ne.symm hne1k),
      PyDict.getd_set_self]
  · intro f hf1 hf2 hfk
    show PyDict.getd (insert_edge_non_cofacial m c1 c2).2.face_vertices f [] = _
    rw [hfv, ← hk0]
    rw [PyDict.getd_del_ne _ _ hf2, PyDict.getd_del_ne _ _ hf1,
      PyDict.getd_set_ne _ _ _ hfk, PyDict.getd_set_ne _ _ _ hfk]
    rfl

/-! ## effect of `_insert_edge_cofacial` -/

theorem insert_edge_cofacial_effect (m : DLFLMesh) (c1 c2 : Corner)
    (hnodup : (m.face_keys.counter.map (·.1)).Nodup)
    (hget : KeyStore.counter_get m.face_keys.counter c1.face_key = 1)
    (hf0 : KeyStore.counter_has m.face_keys.counter (gen_face_key m 0) = false)
    (hf1 : KeyStore.counter_has m.face_keys.counter (gen_face_key m 1) = false)
    (h01 : gen_face_key m 0 ≠ gen_face_key m 1) :
    (insert_edge_cofacial m c1 c2).1 = (gen_face_key m 0, gen_face_key m 1) ∧
    live_faces (insert_edge_cofacial m c1 c2).2
      = ((live_faces m).erase c1.face_key) ++ [gen_face_key m 0, gen_face_key m 1] ∧
    face_vertices_of (insert_edge_cofacial m c1 c2).2 (gen_face_key m 0)
      = (circular_list.split_at_item (circular_list.circulated_to_item
          (face_vertices_of m c1.face_key) c2.vertex_key) c1.vertex_key).1
        ++ [c2.vertex_key] ∧
    face_vertices_of (insert_edge_cofacial m c1 c2).2 (gen_face_key m 1)
      = (circular_list.split_at_item (circular_list.circulated_to_item
          (face_vertices_of m c1.face_key) c2.vertex_key) c1.vertex_key).2
        ++ [c1.vertex_key] ∧
    (∀ f, f ≠ c1.face_key → f ≠ gen_face_key m 0 → f ≠ gen_face_key m 1 →
      face_vertices_of (insert_edge_cofacial m c1 c2).2 f = face_vertices_of m f) := by
  have hk0 : (create_face m).1 = gen_face_key m 0 := (gen_face_key_zero m).symm
  have hk1 : (create_face (create_face m).2).1 = gen_face_key m 1 := by
    rw [create_face_fst]
    exact next_key_after_create m hf0
  have hneF0 : c1.face_key ≠ gen_face_key m 0 := ne_of_get_one_not_has hget hf0
  have hneF1 : c1.face_key ≠ gen_face_key m 1 := ne_of_get_one_not_has hget hf1
  have hcounter : (insert_edge_cofacial m c1 c2).2.face_keys.counter
      = KeyStore.counter_add (KeyStore.counter_add
          (KeyStore.counter_add m.face_keys.counter ((create_face m).1) 1)
          ((create_face (create_face m).2).1) 1) c1.face_key (-1) := rfl
  have hfv : (insert_edge_cofacial m c1 c2).2.face_vertices
      = PyDict.del (PyDict.set (PyDict.set
          (PyDict.set (PyDict.set m.face_vertices ((create_face m).1) [])
            ((create_face (create_face m).2).1) [])
          ((create_face m).1)
          ((circular_list.split_at_item (circular_list.circulated_to_item
            (PyDict.getd (PyDict.set (PyDict.set m.face_vertices ((create_face m).1) [])
              ((create_face (create_face m).2).1) []) c1.face_key [])
            c2.vertex_key) c1.vertex_key).1 ++ [c2.vertex_key]))
          ((create_face (create_face m).2).1)
          ((circular_list.split_at_item (circular_list.circulated_to_item
            (PyDict.getd (PyDict.set (PyDict.set m.face_vertices ((create_face m).1) [])
              ((create_face (create_face m).2).1) []) c1.face_key [])
            c2.vertex_key) c1.vertex_key).2 ++ [c1.vertex_key]))
        c1.face_key := rfl
  have hret : (insert_edge_cofacial m c1 c2).1
      = ((create_face m).1, (create_face (create_face m).2).1) := rfl
  have hread : PyDict.getd (PyDict.set (PyDict.set m.face_vertices ((create_face m).1) [])
      ((create_face (create_face m).2).1) []) c1.face_key []
      = face_vertices_of m c1.face_key := by
    rw [hk0, hk1, PyDict.getd_set_ne _ _ _ hneF1, PyDict.getd_set_ne _ _ _ hneF0]
    rfl
  refine ⟨by rw [hret, hk0, hk1], ?_, ?_, ?_, ?_⟩
  · show KeyStore.counter_live (insert_edge_cofacial m c1 c2).2.face_keys.counter = _
    rw [hcounter, hk0, hk1]
    have hstep1 : KeyStore.counter_add m.face_keys.counter (gen_face_key m 0) 1
        = m.face_keys.counter ++ [(gen_face_key m 0, 1)] :=
      KeyStore.counter_add_absent 1 hf0
    have hhasg1 : KeyStore.counter_has
        (KeyStore.counter_add m.face_keys.counter (gen_face_key m 0) 1)
        (gen_face_key m 1) = false := by
      rw [hstep1]
      simp only [KeyStore.counter_has, List.any_append, Bool.or_eq_false_iff]
      refine ⟨hf1, ?_⟩
      simp only [List.any_cons, List.any_nil, Bool.or_false, decide_eq_false_iff_not]
      exact h01
    have hstep2 : KeyStore.counter_add
        (KeyStore.counter_add m.face_keys.counter (gen_face_key m 0) 1)
        (gen_face_key m 1) 1
        = m.face_keys.counter ++ [(gen_face_key m 0, 1)] ++ [(gen_face_key m 1, 1)] := by
      rw [KeyStore.counter_add_absent 1 hhasg1, hstep1]
    have hlive2 : KeyStore.counter_live (KeyStore.counter_add
        (KeyStore.counter_add m.face_keys.counter (gen_face_key m 0) 1)
        (gen_face_key m 1) 1)
        = KeyStore.counter_live m.face_keys.counter
            ++ [gen_face_key m 0] ++ [gen_face_key m 1] := by
      rw [hstep2, KeyStore.counter_live_append_pos,
        KeyStore.counter_live_append_pos]
    have hkeys2 : ((KeyStore.counter_add
        (KeyStore.counter_add m.face_keys.counter (gen_face_key m 0) 1)
        (gen_face_key m 1) 1).map (·.1)).Nodup := by
      rw [hstep2]
      simp only [List.map_append, List.map_cons, List.map_nil]
      rw [List.nodup_append, List.nodup_append]
      refine ⟨⟨hnodup, List.nodup_singleton _, ?_⟩, List.nodup_singleton _, ?_⟩
      · intro a ha hb
        simp at hb
        exact not_mem_keys_of_not_has hf0 (hb ▸ ha)
      · intro a ha hb
        simp at hb
        subst hb
        rcases List.mem_append.1 ha with ha | ha
        · exact not_mem_keys_of_not_has hf1 ha
        · simp at ha
          exact h01 ha.symm
    have hgetF : KeyStore.counter_get (KeyStore.counter_add
        (KeyStore.counter_add m.face_keys.counter (gen_face_key m 0) 1)
        (gen_face_key m 1) 1) c1.face_key = 1 := by
      rw [KeyStore.counter_get_add_ne _ _ hneF1, KeyStore.counter_get_add_ne _ _ hneF0]
      exact hget
    have hhasF : KeyStore.counter_has (KeyStore.counter_add
        (KeyStore.counter_add m.face_keys.counter (gen_face_key m 0) 1)
        (gen_face_key m 1) 1) c1.face_key = true := by
      rw [KeyStore.counter_has_add_ne _ _ hneF1, KeyStore.counter_has_add_ne _ _ hneF0]
      exact has_of_get_one hget
    rw [KeyStore.counter_live_sub_one hkeys2 hgetF hhasF, hlive2]
    rw [List.append_assoc, List.erase_append_left _
      (KeyStore.mem_counter_live hget (has_of_get_one hget))]
    rfl
  · show PyDict.getd (insert_edge_cofacial m c1 c2).2.face_vertices (gen_face_key m 0) [] = _
    rw [hfv, hread, hk0, hk1]
    rw [PyDict.getd_del_ne _ _ (Ne.symm hneF0), PyDict.getd_set_ne _ _ _ h01,
      PyDict.getd_set_self]
  · show PyDict.getd (insert_edge_cofacial m c1 c2).2.face_vertices (gen_face_key m 1) [] = _
    rw [hfv, hread, hk0, hk1]
    rw [PyDict.getd_del_ne _ _ (Ne.symm hneF1), PyDict.getd_set_self]
  · intro f hfF hf0' hf1'
    show PyDict.getd (insert_edge_cofacial m c1 c2).2.face_vertices f [] = _
    rw [hfv, hk0, hk1]
    rw [PyDict.getd_del_ne _ _ hfF, PyDict.getd_set_ne _ _ _ hf1',
      PyDict.getd_set_ne _ _ _ hf0', PyDict.getd_set_ne _ _ _ hf1',
      PyDict.getd_set_ne _ _ _ hf0']
    rfl

/-! ## sums over live faces -/

theorem sum_map_erase {x : String} {l : List String} (g : String → Nat) (h : x ∈ l) :
    ((l.erase x).map g).sum + g x = (l.map g).sum := by
  have hperm : l.Perm (x :: l.erase x) := List.perm_cons_erase h
  rw [(hperm.map g).sum_eq]
  simp [Nat.add_comm]

/-! ## C2 -/

theorem merged_boundary_point_spheres (m : DLFLMesh) (c1 c2 : Corner)
    (hb1 : face_vertices_of m c1.face_key = [c1.vertex_key])
    (hb2 : face_vertices_of m c2.face_key = [c2.vertex_key]) :
    merged_boundary m c1 c2 = [c1.vertex_key, c2.vertex_key] := by
  rw [merged_boundary, hb1, hb2]
  simp [circular_list.circulated_to_item, circular_list.index_of,
    circular_list.circulated_to, circular_list.previous_item, List.findIdx_cons]

/-- C2: non-cofacial `insert_edge` computes the merged face's boundary as the
two rotated old boundaries with `corner_2.vertex` appended only if face 2 was
not a point-sphere and `corner_1.vertex` appended only if face 1 was not a
point-sphere; in particular, inserting an edge between two point-spheres
leaves exactly one merged face with boundary `[v1, v2]` — length 2, each
vertex once, no duplicates. -/
theorem insert_edge_point_sphere_merge (m : DLFLMesh) (c1 c2 : Corner)
    (hcof : c1.face_key ≠ c2.face_key)
    (hnodup : (m.face_keys.counter.map (·.1)).Nodup)
    (hget1 : KeyStore.counter_get m.face_keys.counter c1.face_key = 1)
    (hget2 : KeyStore.counter_get m.face_keys.counter c2.face_key = 1)
    (hfresh : KeyStore.counter_has m.face_keys.counter (gen_face_key m 0) = false) :
    face_vertices_of (insert_edge m c1 c2).2 (gen_face_key m 0)
      = merged_boundary m c1 c2 ∧
    (insert_edge m c1 c2).1 = (gen_face_key m 0, gen_face_key m 0) ∧
    (face_vertices_of m c1.face_key = [c1.vertex_key] →
      face_vertices_of m c2.face_key = [c2.vertex_key] →
      face_vertices_of (insert_edge m c1 c2).2 (gen_face_key m 0)
          = [c1.vertex_key, c2.vertex_key] ∧
        live_faces (insert_edge m c1 c2).2
          = (((live_faces m).erase c1.face_key).erase c2.face_key)
              ++ [gen_face_key m 0]) := by
  have hdisp : insert_edge m c1 c2 = insert_edge_non_cofacial m c1 c2 := by
    unfold insert_edge
    rw [if_neg hcof]
  rcases insert_edge_non_cofacial_effect m c1 c2 hnodup hget1 hget2 hcof hfresh with
    ⟨hret, hlive, hbnd, _⟩
  rw [hdisp]
  refine ⟨hbnd, hret, ?_⟩
  intro hb1 hb2
  exact ⟨by rw [hbnd, merged_boundary_point_spheres m c1 c2 hb1 hb2], hlive⟩

/-- C2 witness: the theorem applied to the two-point-sphere mesh (`f1 = [v1]`,
`f2 = [v2]`): the merged face `f3` has boundary `[v1, v2]`. -/
theorem insert_edge_point_sphere_merge_witness :
    (("f1" : String) ≠ "f2" ∧
      ((two_sphere_mesh.face_keys.counter.map (·.1)).Nodup ∧
        KeyStore.counter_get two_sphere_mesh.face_keys.counter "f1" = 1 ∧
        KeyStore.counter_get two_sphere_mesh.face_keys.counter "f2" = 1 ∧
        KeyStore.counter_has two_sphere_mesh.face_keys.counter
          (gen_face_key two_sphere_mesh 0) = false)) ∧
    (face_vertices_of (insert_edge two_sphere_mesh
        (corner_from_face_vertex two_sphere_mesh "f1" "v1")
        (corner_from_face_vertex two_sphere_mesh "f2" "v2")).2
        (gen_face_key two_sphere_mesh 0)
      = merged_boundary two_sphere_mesh
          (corner_from_face_vertex two_sphere_mesh "f1" "v1")
          (corner_from_face_vertex two_sphere_mesh "f2" "v2") ∧
    (insert_edge two_sphere_mesh
        (corner_from_face_vertex two_sphere_mesh "f1" "v1")
        (corner_from_face_vertex two_sphere_mesh "f2" "v2")).1
      = (gen_face_key two_sphere_mesh 0, gen_face_key two_sphere_mesh 0) ∧
    (face_vertices_of two_sphere_mesh "f1" = ["v1"] →
      face_vertices_of two_sphere_mesh "f2" = ["v2"] →
      face_vertices_of (insert_edge two_sphere_mesh
          (corner_from_face_vertex two_sphere_mesh "f1" "v1")
          (corner_from_face_vertex two_sphere_mesh "f2" "v2")).2
          (gen_face_key two_sphere_mesh 0)
        = ["v1", "v2"] ∧
      live_faces (insert_edge two_sphere_mesh
          (corner_from_face_vertex two_sphere_mesh "f1" "v1")
          (corner_from_face_vertex two_sphere_mesh "f2" "v2")).2
        = (((live_faces two_sphere_mesh).erase "f1").erase "f2")
            ++ [gen_face_key two_sphere_mesh 0])) :=
  ⟨⟨by decide, by decide, by decide, by decide, by decide⟩,
    insert_edge_point_sphere_merge two_sphere_mesh
      (corner_from_face_vertex two_sphere_mesh "f1" "v1")
      (corner_from_face_vertex two_sphere_mesh "f2" "v2")
      (by decide) (by decide) (by decide) (by decide) (by decide)⟩

/-! ## C3 -/

/-- C3: for a valid pair of distinct corners, cofacial `insert_edge`
increases the number of live faces by exactly 1 and the total number of
boundary-vertex entries over all live faces by exactly 2; non-cofacial
`insert_edge` decreases the number of live faces by exactly 1. -/
theorem insert_edge_face_count (m : DLFLMesh) (c1 c2 : Corner)
    (hnodup : (m.face_keys.counter.map (·.1)).Nodup)
    (hget1 : KeyStore.counter_get m.face_keys.counter c1.face_key = 1)
    (hget2 : KeyStore.counter_get m.face_keys.counter c2.face_key = 1)
    (hf0 : KeyStore.counter_has m.face_keys.counter (gen_face_key m 0) = false)
    (hf1 : KeyStore.counter_has m.face_keys.counter (gen_face_key m 1) = false)
    (h01 : gen_face_key m 0 ≠ gen_face_key m 1) :
    (c1.face_key = c2.face_key →
      (live_faces (insert_edge m c1 c2).2).length = (live_faces m).length + 1 ∧
      total_boundary (insert_edge m c1 c2).2 = total_boundary m + 2) ∧
    (c1.face_key ≠ c2.face_key →
      (live_faces (insert_edge m c1 c2).2).length + 1 = (live_faces m).length) := by
  constructor
  · intro heq
    have hdisp : insert_edge m c1 c2 = insert_edge_cofacial m c1 c2 := by
      unfold insert_edge
      rw [if_pos heq]
    rcases insert_edge_cofacial_effect m c1 c2 hnodup hget1 hf0 hf1 h01 with
      ⟨_, hlive, hb1, hb2, hframe⟩
    have hmem : c1.face_key ∈ live_faces m :=
      KeyStore.mem_counter_live hget1 (has_of_get_one hget1)
    have hlnodup : (live_faces m).Nodup := KeyStore.counter_live_nodup hnodup
    constructor
    · rw [hdisp, hlive, List.length_append, List.length_erase_of_mem hmem]
      have hlen : 0 < (live_faces m).length := List.length_pos_of_mem hmem
      simp only [List.length_cons, List.length_nil]
      omega
    · rw [hdisp]
      show ((live_faces (insert_edge_cofacial m c1 c2).2).map
        (fun f => (face_vertices_of (insert_edge_cofacial m c1 c2).2 f).length)).sum = _
      rw [hlive, List.map_append, List.sum_append]
      have hcongr : ((live_faces m).erase c1.face_key).map
          (fun f => (face_vertices_of (insert_edge_cofacial m c1 c2).2 f).length)
          = ((live_faces m).erase c1.face_key).map
              (fun f => (face_vertices_of m f).length) := by
        apply List.map_congr_left
        intro f hf
        rcases (hlnodup.mem_erase_iff.1 hf) with ⟨hfne, hfmem⟩
        have hfkeys := KeyStore.counter_live_subset_keys hfmem
        have hfg0 : f ≠ gen_face_key m 0 := fun hc =>
          not_mem_keys_of_not_has hf0 (hc ▸ hfkeys)
        have hfg1 : f ≠ gen_face_key m 1 := fun hc =>
          not_mem_keys_of_not_has hf1 (hc ▸ hfkeys)
        rw [hframe f hfne hfg0 hfg1]
      rw [hcongr]
      have hsum' : (((live_faces m).erase c1.face_key).map
            (fun f => (face_vertices_of m f).length)).sum
          + (face_vertices_of m c1.face_key).length
          = ((live_faces m).map (fun f => (face_vertices_of m f).length)).sum :=
        sum_map_erase (fun f => (face_vertices_of m f).length) hmem
      have hlen12 : (face_vertices_of (insert_edge_cofacial m c1 c2).2
            (gen_face_key m 0)).length
          + (face_vertices_of (insert_edge_cofacial m c1 c2).2
            (gen_face_key m 1)).length
          = (face_vertices_of m c1.face_key).length + 2 := by
        rw [hb1, hb2]
        simp only [List.length_append, List.length_cons, List.length_nil]
        have hsp := circular_list.split_at_lengths
          (circular_list.circulated_to_item (face_vertices_of m c1.face_key)
            c2.vertex_key)
          (circular_list.index_of (circular_list.circulated_to_item
            (face_vertices_of m c1.face_key) c2.vertex_key) c1.vertex_key + 1)
        have hcl := circular_list.length_circulated_to_item
          (face_vertices_of m c1.face_key) c2.vertex_key
        rw [circular_list.split_at_item]
        omega
      simp only [List.map_cons, List.map_nil, List.sum_cons, List.sum_nil]
      have htb : total_boundary m = ((live_faces m).map
          (fun f => (face_vertices_of m f).length)).sum := rfl
      omega
  · intro hne
    have hdisp : insert_edge m c1 c2 = insert_edge_non_cofacial m c1 c2 := by
      unfold insert_edge
      rw [if_neg hne]
    rcases insert_edge_non_cofacial_effect m c1 c2 hnodup hget1 hget2 hne hf0 with
      ⟨_, hlive, _, _⟩
    have hmem1 : c1.face_key ∈ live_faces m :=
      KeyStore.mem_counter_live hget1 (has_of_get_one hget1)
    have hmem2 : c2.face_key ∈ live_faces m :=
      KeyStore.mem_counter_live hget2 (has_of_get_one hget2)
    have hmem2' : c2.face_key ∈ (live_faces m).erase c1.face_key :=
      (List.mem_erase_of_ne hne.symm).2 hmem2
    rw [hdisp, hlive, List.length_append]
    have hlen1 : 0 < (live_faces m).length := List.length_pos_of_mem hmem1
    have hlen2 : 0 < ((live_faces m).erase c1.face_key).length :=
      List.length_pos_of_mem hmem2'
    rw [List.length_erase_of_mem hmem2', List.length_erase_of_mem hmem1]
    rw [List.length_erase_of_mem hmem1] at hlen2
    simp only [List.length_cons, List.length_nil]
    omega

/-- C3 witness: splitting the quadrilateral `f1 = [v1, v2, v3, v4]` along
`v1`–`v3`. -/
theorem insert_edge_face_count_witness :
    ((quad_mesh.face_keys.counter.map (·.1)).Nodup ∧
      KeyStore.counter_get quad_mesh.face_keys.counter
        (corner_from_face_vertex quad_mesh "f1" "v1").face_key = 1 ∧
      KeyStore.counter_get quad_mesh.face_keys.counter
        (corner_from_face_vertex quad_mesh "f1" "v3").face_key = 1 ∧
      KeyStore.counter_has quad_mesh.face_keys.counter (gen_face_key quad_mesh 0) = false ∧
      KeyStore.counter_has quad_mesh.face_keys.counter (gen_face_key quad_mesh 1) = false ∧
      gen_face_key quad_mesh 0 ≠ gen_face_key quad_mesh 1) ∧
    (((corner_from_face_vertex quad_mesh "f1" "v1").face_key
        = (corner_from_face_vertex quad_mesh "f1" "v3").face_key →
      (live_faces (insert_edge quad_mesh
          (corner_from_face_vertex quad_mesh "f1" "v1")
          (corner_from_face_vertex quad_mesh "f1" "v3")).2).length
        = (live_faces quad_mesh).length + 1 ∧
      total_boundary (insert_edge quad_mesh
          (corner_from_face_vertex quad_mesh "f1" "v1")
          (corner_from_face_vertex quad_mesh "f1" "v3")).2
        = total_boundary quad_mesh + 2) ∧
    ((corner_from_face_vertex quad_mesh "f1" "v1").face_key
        ≠ (corner_from_face_vertex quad_mesh "f1" "v3").face_key →
      (live_faces (insert_edge quad_mesh
          (corner_from_face_vertex quad_mesh "f1" "v1")
          (corner_from_face_vertex quad_mesh "f1" "v3")).2).length + 1
        = (live_faces quad_mesh).length)) :=
  ⟨⟨by decide, by decide, by decide, by decide, by decide, by decide⟩,
    insert_edge_face_count quad_mesh
      (corner_from_face_vertex quad_mesh "f1" "v1")
      (corner_from_face_vertex quad_mesh "f1" "v3")
      (by decide) (by decide) (by decide) (by decide) (by decide) (by decide)⟩

/-! ## C8 -/

theorem corner_face_key (m : DLFLMesh) (f : FaceKey) (v : VertexKey) :
    (corner_from_face_vertex m f v).face_key = f := rfl

theorem corner_ne_of_face_ne {m : DLFLMesh} {f f0 : FaceKey} {v : VertexKey}
    (h : f ≠ f0) :
    corner_from_face_vertex m f v ≠ corner_from_face_vertex m f0 v := by
  intro hc
  exact h (congrArg Corner.face_key hc)

theorem vertex_trace_aux_eq_walk (m : DLFLMesh) (v : VertexKey) (f0 : FaceKey) :
    ∀ (fuel : Nat) (f : FaceKey),
    vertex_trace_aux m v (corner_from_face_vertex m f0 v) fuel
        (corner_from_face_vertex m f v)
      = (walk_to_start m v f0 fuel f).map
          (List.map (fun g => corner_from_face_vertex m g v)) := by
  intro fuel
  induction fuel with
  | zero => intro f; rfl
  | succ n ih =>
    intro f
    rw [vertex_trace_aux, walk_to_start]
    by_cases hf : f = f0
    · subst hf
      rw [if_pos rfl, if_pos rfl]
      rfl
    · rw [if_neg (corner_ne_of_face_ne hf), if_neg hf]
      have hstep' : next_rotation_face m v (corner_from_face_vertex m f v)
          = rotation_step m v f := rfl
      rw [hstep']
      cases hstep : rotation_step m v f with
      | none => rfl
      | some g =>
        show (vertex_trace_aux m v (corner_from_face_vertex m f0 v) n
            (corner_from_face_vertex m g v)).map (corner_from_face_vertex m f v :: ·)
          = ((walk_to_start m v f0 n g).map (f :: ·)).map
              (List.map (fun g => corner_from_face_vertex m g v))
        rw [ih g]
        cases hw : walk_to_start m v f0 n g with
        | none => rfl
        | some l => rfl

theorem walk_to_start_mono (m : DLFLMesh) (v : VertexKey) (f0 : FaceKey) :
    ∀ (fuel fuel' : Nat) (f : FaceKey) (l : List FaceKey), fuel ≤ fuel' →
    walk_to_start m v f0 fuel f = some l → walk_to_start m v f0 fuel' f = some l := by
  intro fuel
  induction fuel with
  | zero =>
    intro fuel' f l _ h
    exact absurd h (by simp [walk_to_start])
  | succ n ih =>
    intro fuel' f l hle h
    obtain ⟨m', rfl⟩ : ∃ m', fuel' = m' + 1 := ⟨fuel' - 1, by omega⟩
    rw [walk_to_start] at h ⊢
    by_cases hf : f = f0
    · rw [if_pos hf] at h ⊢
      exact h
    · rw [if_neg hf] at h ⊢
      cases hstep : rotation_step m v f with
      | none =>
        rw [hstep] at h
        exact absurd h (by simp)
      | some g =>
        rw [hstep] at h
        replace h : (walk_to_start m v f0 n g).map (f :: ·) = some l := h
        show (walk_to_start m v f0 m' g).map (f :: ·) = some l
        cases hw : walk_to_start m v f0 n g with
        | none =>
          rw [hw] at h
          exact absurd h (by simp)
        | some l' =>
          rw [hw] at h
          rw [ih m' g l' (by omega) hw]
          exact h

/-- C8 counterexample: on the two-point-sphere mesh joined by one edge
(faces `f1`, `f2` dead, merged face `f3 = [v1, v2]`), the live vertex `v1`
has degree 1, yet `vertex_trace` does not yield its 1-corner rotation: the
`next(...)` search for a second face raises `StopIteration` (embedded as
`none`) — the run fails instead of closing, for any fuel (the failure is
before the loop; fuel 100 shown). -/
theorem vertex_trace_degree_one_fails :
    vertex_trace edge_mesh "v1" 100 = none ∧
    degree edge_mesh "v1" = 1 ∧
    KeyStore.mem_store edge_mesh.vertex_keys "v1" = true := by
  refine ⟨?_, by decide, by decide⟩
  decide

/-- C8 amended: `vertex_trace` terminates with one corner per incident face
exactly on vertices whose rotation walk closes into a single cycle (the
manifold invariant, `rotation_closes`): then for any fuel of at least
`degree(v)` it yields exactly `degree(v)` corners, one per face of the
vertex's rotation.  The source has no iteration cap and no
`NonManifoldVertex` error: on a vertex whose walk cannot close it either
raises `StopIteration` (see the counterexample — already for a plain
degree-1 vertex) or loops forever. -/
theorem vertex_trace_closes (m : DLFLMesh) (v : VertexKey) (fuel : Nat)
    (hclose : rotation_closes m v = true) (hfuel : degree m v ≤ fuel) :
    ∃ cs, vertex_trace m v fuel = some cs ∧
      cs.length = degree m v ∧
      (cs.map (fun c => c.face_key)).Perm (vertex_faces_of m v) := by
  unfold rotation_closes at hclose
  cases hvf : vertex_faces_of m v with
  | nil =>
    rw [hvf] at hclose
    simp at hclose
  | cons f0 rest =>
    rw [hvf] at hclose
    replace hclose : ((rotation_step m v f0).bind
        (fun f1 => walk_to_start m v f0 rest.length.succ f1)).elim false
        (fun mids => decide ((f0 :: mids).Perm (f0 :: rest))
          && decide ((f0 :: mids).Nodup)) = true := hclose
    cases hstep : rotation_step m v f0 with
    | none =>
      rw [hstep] at hclose
      replace hclose : false = true := hclose
      simp at hclose
    | some f1 =>
      rw [hstep] at hclose
      replace hclose : (walk_to_start m v f0 rest.length.succ f1).elim false
          (fun mids => decide ((f0 :: mids).Perm (f0 :: rest))
            && decide ((f0 :: mids).Nodup)) = true := hclose
      cases hw : walk_to_start m v f0 rest.length.succ f1 with
      | none =>
        rw [hw] at hclose
        replace hclose : false = true := hclose
        simp at hclose
      | some mids =>
        rw [hw] at hclose
        replace hclose : (decide ((f0 :: mids).Perm (f0 :: rest))
            && decide ((f0 :: mids).Nodup)) = true := hclose
        simp only [Bool.and_eq_true, decide_eq_true_eq] at hclose
        obtain ⟨hperm, _⟩ := hclose
        have hdeg : degree m v = rest.length + 1 := by
          rw [degree, hvf]
          rfl
        have hwfuel : walk_to_start m v f0 fuel f1 = some mids :=
          walk_to_start_mono m v f0 rest.length.succ fuel f1 mids
            (by omega) hw
        refine ⟨(f0 :: mids).map (fun g => corner_from_face_vertex m g v), ?_, ?_, ?_⟩
        · unfold vertex_trace
          rw [hvf]
          have hstep2 : next_rotation_face m v (corner_from_face_vertex m f0 v)
              = some f1 := hstep
          show (next_rotation_face m v (corner_from_face_vertex m f0 v)).bind
              (fun f1 => (vertex_trace_aux m v (corner_from_face_vertex m f0 v) fuel
                (corner_from_face_vertex m f1 v)).map
                  (corner_from_face_vertex m f0 v :: ·)) = _
          rw [hstep2]
          show (vertex_trace_aux m v (corner_from_face_vertex m f0 v) fuel
              (corner_from_face_vertex m f1 v)).map
                (corner_from_face_vertex m f0 v :: ·) = _
          rw [vertex_trace_aux_eq_walk, hwfuel]
          rfl
        · rw [List.length_map, hperm.length_eq, hdeg]
          rfl
        · rw [List.map_map]
          have hcomp : ((fun c : Corner => c.face_key) ∘
              (fun g => corner_from_face_vertex m g v)) = id := by
            funext g
            rfl
          rw [hcomp, List.map_id]
          exact hperm

/-- C8 witness: on the double-sided triangle, the rotation of `v1` closes and
`vertex_trace` yields its 2 corners. -/
theorem vertex_trace_closes_witness :
    rotation_closes two_tri_mesh "v1" = true ∧
    degree two_tri_mesh "v1" ≤ 3 ∧
    (∃ cs, vertex_trace two_tri_mesh "v1" 3 = some cs ∧
      cs.length = degree two_tri_mesh "v1" ∧
      (cs.map (fun c => c.face_key)).Perm (vertex_faces_of two_tri_mesh "v1")) :=
  ⟨by decide, by decide,
    vertex_trace_closes two_tri_mesh "v1" 3 (by decide) (by decide)⟩

/-! ## circular-list first-occurrence lemmas (for C4) -/

namespace circular_list

variable {α : Type} [DecidableEq α] [Inhabited α]

theorem index_of_append_cons (A B : List α) (x : α) (hx : x ∉ A) :
    index_of (A ++ x :: B) x = A.length := by
  induction A with
  | nil => simp [index_of, List.findIdx_cons]
  | cons a A ih =>
    have hax : ¬ (a = x) := fun h => hx (by simp [h])
    have hxA : x ∉ A := fun h => hx (List.mem_cons_of_mem _ h)
    simp only [List.cons_append, index_of, List.findIdx_cons, hax, decide_eq_true_eq,
      if_false, List.length_cons]
    simp only [index_of] at ih
    rw [cond_eq_if]
    simp [hax, ih hxA]

theorem cons_eq_concat_append (A : List α) (x : α) (B : List α) :
    A ++ x :: B = (A ++ [x]) ++ B := by simp

theorem circulated_to_item_concat {A B : List α} {x : α} (hx : x ∉ A) :
    circulated_to_item (A ++ x :: B) x = B ++ A ++ [x] := by
  rw [circulated_to_item, index_of_append_cons A B x hx, circulated_to_eq_rotate]
  have hle : A.length + 1 ≤ (A ++ x :: B).length := by
    simp only [List.length_append, List.length_cons]
    omega
  rw [List.rotate_eq_drop_append_take hle, cons_eq_concat_append A x B,
    List.drop_left' (by simp : (A ++ [x]).length = A.length + 1),
    List.take_left' (by simp : (A ++ [x]).length = A.length + 1)]
  simp

theorem split_at_item_concat {A B : List α} {x : α} (hx : x ∉ A) (hB : B ≠ []) :
    split_at_item (A ++ x :: B) x = (A ++ [x], B) := by
  rw [split_at_item, index_of_append_cons A B x hx, split_at]
  have hlt : A.length + 1 < (A ++ x :: B).length := by
    rcases List.exists_cons_of_ne_nil hB with ⟨b, B', rfl⟩
    simp only [List.length_append, List.length_cons]
    omega
  rw [Nat.mod_eq_of_lt hlt, cons_eq_concat_append A x B,
    List.take_left' (by simp : (A ++ [x]).length = A.length + 1),
    List.drop_left' (by simp : (A ++ [x]).length = A.length + 1)]

theorem index_of_getElem {l : List α} (h : l.Nodup) (i : Nat) (hi : i < l.length) :
    index_of l l[i] = i := by
  induction l generalizing i with
  | nil => simp at hi
  | cons a t ih =>
    cases i with
    | zero => simp [index_of, List.findIdx_cons]
    | succ j =>
      have hj : j < t.length := by simpa using hi
      have hx : t[j] ∈ t := List.getElem_mem hj
      have hax : ¬ (a = t[j]) := by
        intro hc
        exact (List.nodup_cons.1 h).1 (hc ▸ hx)
      show index_of (a :: t) t[j] = j + 1
      simp only [index_of, List.findIdx_cons, cond_eq_if, decide_eq_true_eq, hax, if_false]
      have := ih (List.nodup_cons.1 h).2 j hj
      simp only [index_of] at this
      rw [this]

theorem circulated_to_item_previous {b : List α} {v : α} {A B : List α}
    (hnd : b.Nodup) (hb : b = A ++ v :: B) (hvA : v ∉ A) :
    circulated_to_item b (previous_item b v) = v :: (B ++ A) := by
  have hn : 0 < b.length := by
    rw [hb]
    simp
  have hidx : index_of b v = A.length := by
    rw [hb]
    exact index_of_append_cons A B v hvA
  have hAlt : A.length < b.length := by
    rw [hb]
    simp
  have hj : (A.length + (b.length - 1)) % b.length < b.length := Nat.mod_lt _ hn
  have hprev : previous_item b v
      = b[(A.length + (b.length - 1)) % b.length] := by
    rw [previous_item, hidx, List.getD_eq_getElem b default hj]
  have hidx2 : index_of b (previous_item b v)
      = (A.length + (b.length - 1)) % b.length := by
    rw [hprev]
    exact index_of_getElem hnd _ hj
  have hmod : ((A.length + (b.length - 1)) % b.length + 1) % b.length = A.length := by
    rw [Nat.mod_add_mod]
    have : A.length + (b.length - 1) + 1 = A.length + b.length := by omega
    rw [this, Nat.add_mod_right]
    exact Nat.mod_eq_of_lt hAlt
  rw [circulated_to_item, hidx2, circulated_to_eq_rotate, ← List.rotate_mod, hmod, hb,
    List.rotate_eq_drop_append_take (le_of_lt (by simpa using hAlt)),
    List.drop_left' (rfl : A.length = A.length),
    List.take_left' (rfl : A.length = A.length)]
  simp

theorem pairs_length (l : List α) : (pairs l).length = l.length := by
  simp [pairs]

theorem pairs_getElem (l : List α) (i : Nat) (hi : i < (pairs l).length) :
    (pairs l)[i] = (l.getD i default, l.getD ((i + 1) % l.length) default) := by
  simp [pairs]

theorem getD_append_cons_self (A : List α) (x : α) (B : List α) :
    (A ++ x :: B).getD A.length default = x := by
  rw [List.getD_eq_getElem _ default (by simp : A.length < (A ++ x :: B).length)]
  rw [List.getElem_append_right (Nat.le_refl _)]
  simp

theorem index_of_pairs (X Z : List α) (x y : α) (hx : x ∉ X) :
    index_of (pairs (X ++ x :: y :: Z)) (x, y) = X.length := by
  have hlenG : (X ++ x :: y :: Z).length = X.length + 2 + Z.length := by
    simp only [List.length_append, List.length_cons]
    omega
  have hlenP : (pairs (X ++ x :: y :: Z)).length = X.length + 2 + Z.length := by
    rw [pairs_length, hlenG]
  have hXlt : X.length < (pairs (X ++ x :: y :: Z)).length := by omega
  rw [index_of]
  rw [List.findIdx_eq hXlt]
  constructor
  · rw [pairs_getElem _ _ hXlt]
    have h1 : (X ++ x :: y :: Z).getD X.length default = x :=
      getD_append_cons_self X x (y :: Z)
    have hmod : (X.length + 1) % (X ++ x :: y :: Z).length = X.length + 1 := by
      rw [hlenG]
      exact Nat.mod_eq_of_lt (by omega)
    have h2 : (X ++ x :: y :: Z).getD ((X.length + 1) % (X ++ x :: y :: Z).length)
        default = y := by
      rw [hmod, List.getD_eq_getElem _ default
        (by omega : X.length + 1 < (X ++ x :: y :: Z).length)]
      rw [List.getElem_append_right (by omega : X.length ≤ X.length + 1)]
      simp
    rw [h1, h2]
    simp
  · intro j hj
    rw [pairs_getElem _ _ (by omega)]
    simp only [decide_eq_false_iff_not]
    intro hc
    have hfst : (X ++ x :: y :: Z).getD j default = x := congrArg Prod.fst hc
    have hjX : j < X.length := hj
    rw [List.getD_eq_getElem _ default (by omega : j < (X ++ x :: y :: Z).length),
      List.getElem_append_left hjX] at hfst
    exact hx (hfst ▸ List.getElem_mem hjX)

theorem circulated_to_pair_concat (X Z : List α) (x y : α) (hx : x ∉ X) :
    circulated_to_pair (X ++ x :: y :: Z) (x, y) = Z ++ X ++ [x, y] := by
  rw [circulated_to_pair, index_of_pairs X Z x y hx, circulated_to_eq_rotate]
  have hform : X ++ x :: y :: Z = (X ++ [x, y]) ++ Z := by simp
  have hle : X.length + 1 + 1 ≤ (X ++ x :: y :: Z).length := by
    simp only [List.length_append, List.length_cons]
    omega
  rw [List.rotate_eq_drop_append_take hle, hform,
    List.drop_left' (by simp : (X ++ [x, y]).length = X.length + 1 + 1),
    List.take_left' (by simp : (X ++ [x, y]).length = X.length + 1 + 1)]
  simp

theorem split_at_pair_concat (Y W : List α) (u w : α) (hu : u ∉ Y) (hW : W ≠ []) :
    split_at_pair (Y ++ u :: w :: W) (u, w) = (Y ++ [u, w], W) := by
  rw [split_at_pair, index_of_pairs Y W u w hu, split_at]
  have hlt : Y.length + 2 < (Y ++ u :: w :: W).length := by
    rcases List.exists_cons_of_ne_nil hW with ⟨b, W', rfl⟩
    simp only [List.length_append, List.length_cons]
    omega
  have hform : Y ++ u :: w :: W = (Y ++ [u, w]) ++ W := by simp
  rw [Nat.mod_eq_of_lt hlt, hform,
    List.take_left' (by simp : (Y ++ [u, w]).length = Y.length + 2),
    List.drop_left' (by simp : (Y ++ [u, w]).length = Y.length + 2)]

end circular_list

/-! ## supplementary counter lemmas for chaining operators -/

namespace KeyStore

theorem counter_has_add_of_has {c : List (String × Int)} {k : String} {n : Int}
    (h : counter_has c k = true) (k' : String) :
    counter_has (counter_add c k n) k' = counter_has c k' := by
  by_cases hk : k' = k
  · subst hk
    rw [counter_has_add_self, h]
  · exact counter_has_add_ne c n hk

theorem counter_get_append_fresh {c : List (String × Int)} {k : String}
    (h : counter_has c k = false) (n : Int) :
    counter_get (c ++ [(k, n)]) k = n := by
  rw [counter_get, List.find?_append, find_none_of_not_has h]
  simp

theorem counter_has_append_ne {c : List (String × Int)} {k k' : String} {n : Int}
    (h : k' ≠ k) :
    counter_has (c ++ [(k, n)]) k' = counter_has c k' := by
  simp [counter_has, List.any_append, show ¬ (k = k') from fun e => h e.symm]

theorem counter_get_append_left {c : List (String × Int)} {k : String}
    (h : counter_has c k = true) (t : List (String × Int)) :
    counter_get (c ++ t) k = counter_get c k := by
  rcases find_of_has h with ⟨e, he, _⟩
  rw [counter_get, List.find?_append, he, counter_get, he]
  rfl

end KeyStore

theorem gen_face_key_shift {m m' : DLFLMesh} (j : Nat)
    (hlen : m'.face_keys.counter.length = m.face_keys.counter.length + j)
    (hpfx : m'.face_keys.pfx = m.face_keys.pfx)
    (hoff : m'.face_keys.key_index_offset = m.face_keys.key_index_offset) (i : Nat) :
    gen_face_key m' i = gen_face_key m (j + i) := by
  rw [gen_face_key, gen_face_key, hlen, hpfx, hoff]
  congr 2
  omega

theorem insert_edge_non_cofacial_counter (m : DLFLMesh) (c1 c2 : Corner)
    (hget1 : KeyStore.counter_get m.face_keys.counter c1.face_key = 1)
    (hget2 : KeyStore.counter_get m.face_keys.counter c2.face_key = 1)
    (hfresh : KeyStore.counter_has m.face_keys.counter (gen_face_key m 0) = false) :
    (insert_edge_non_cofacial m c1 c2).2.face_keys.counter.map (·.1)
      = m.face_keys.counter.map (·.1) ++ [gen_face_key m 0] ∧
    KeyStore.counter_get (insert_edge_non_cofacial m c1 c2).2.face_keys.counter
      (gen_face_key m 0) = 1 ∧
    (∀ k, k ≠ gen_face_key m 0 →
      KeyStore.counter_has (insert_edge_non_cofacial m c1 c2).2.face_keys.counter k
        = KeyStore.counter_has m.face_keys.counter k) := by
  have hk0 : gen_face_key m 0 = m.face_keys.next_key := gen_face_key_zero m
  have hne1k : c1.face_key ≠ gen_face_key m 0 := ne_of_get_one_not_has hget1 hfresh
  have hne2k : c2.face_key ≠ gen_face_key m 0 := ne_of_get_one_not_has hget2 hfresh
  have hcounter : (insert_edge_non_cofacial m c1 c2).2.face_keys.counter
      = KeyStore.counter_add (KeyStore.counter_add
          (KeyStore.counter_add m.face_keys.counter m.face_keys.next_key 1)
          c1.face_key (-1)) c2.face_key (-1) := rfl
  have hhas1' : KeyStore.counter_has
      (KeyStore.counter_add m.face_keys.counter (gen_face_key m 0) 1) c1.face_key = true := by
    rw [KeyStore.counter_has_add_ne _ _ hne1k]
    exact has_of_get_one hget1
  have hhas2' : KeyStore.counter_has (KeyStore.counter_add (KeyStore.counter_add
      m.face_keys.counter (gen_face_key m 0) 1) c1.face_key (-1)) c2.face_key = true := by
    rw [KeyStore.counter_has_add_of_has hhas1', KeyStore.counter_has_add_ne _ _ hne2k]
    exact has_of_get_one hget2
  refine ⟨?_, ?_, ?_⟩
  · rw [hcounter, ← hk0, KeyStore.keys_counter_add_present _ hhas2',
      KeyStore.keys_counter_add_present _ hhas1',
      KeyStore.keys_counter_add_absent _ hfresh]
  · rw [hcounter, ← hk0, KeyStore.counter_get_add_ne _ _ (Ne.symm hne2k),
      KeyStore.counter_get_add_ne _ _ (Ne.symm hne1k),
      KeyStore.counter_add_absent 1 hfresh,
      KeyStore.counter_get_append_fresh hfresh]
  · intro k hk
    rw [hcounter, ← hk0, KeyStore.counter_has_add_of_has hhas2',
      KeyStore.counter_has_add_of_has hhas1',
      KeyStore.counter_add_absent 1 hfresh,
      KeyStore.counter_has_append_ne hk]

theorem insert_edge_cofacial_counter (m : DLFLMesh) (c1 c2 : Corner)
    (hget : KeyStore.counter_get m.face_keys.counter c1.face_key = 1)
    (hf0 : KeyStore.counter_has m.face_keys.counter (gen_face_key m 0) = false)
    (hf1 : KeyStore.counter_has m.face_keys.counter (gen_face_key m 1) = false)
    (h01 : gen_face_key m 0 ≠ gen_face_key m 1) :
    (insert_edge_cofacial m c1 c2).2.face_keys.counter.map (·.1)
      = m.face_keys.counter.map (·.1) ++ [gen_face_key m 0, gen_face_key m 1] ∧
    KeyStore.counter_get (insert_edge_cofacial m c1 c2).2.face_keys.counter
      (gen_face_key m 0) = 1 ∧
    KeyStore.counter_get (insert_edge_cofacial m c1 c2).2.face_keys.counter
      (gen_face_key m 1) = 1 ∧
    (∀ k, k ≠ gen_face_key m 0 → k ≠ gen_face_key m 1 →
      KeyStore.counter_has (insert_edge_cofacial m c1 c2).2.face_keys.counter k
        = KeyStore.counter_has m.face_keys.counter k) := by
  have hk0 : (create_face m).1 = gen_face_key m 0 := (gen_face_key_zero m).symm
  have hk1 : (create_face (create_face m).2).1 = gen_face_key m 1 := by
    rw [create_face_fst]
    exact next_key_after_create m hf0
  have hneF0 : c1.face_key ≠ gen_face_key m 0 := ne_of_get_one_not_has hget hf0
  have hneF1 : c1.face_key ≠ gen_face_key m 1 := ne_of_get_one_not_has hget hf1
  have hcounter : (insert_edge_cofacial m c1 c2).2.face_keys.counter
      = KeyStore.counter_add (KeyStore.counter_add
          (KeyStore.counter_add m.face_keys.counter ((create_face m).1) 1)
          ((create_face (create_face m).2).1) 1) c1.face_key (-1) := rfl
  have hstep1 : KeyStore.counter_add m.face_keys.counter (gen_face_key m 0) 1
      = m.face_keys.counter ++ [(gen_face_key m 0, 1)] :=
    KeyStore.counter_add_absent 1 hf0
  have hhasg1 : KeyStore.counter_has
      (KeyStore.counter_add m.face_keys.counter (gen_face_key m 0) 1)
      (gen_face_key m 1) = false := by
    rw [hstep1, KeyStore.counter_has_append_ne (Ne.symm h01)]
    exact hf1
  have hstep2 : KeyStore.counter_add
      (KeyStore.counter_add m.face_keys.counter (gen_face_key m 0) 1)
      (gen_face_key m 1) 1
      = KeyStore.counter_add m.face_keys.counter (gen_face_key m 0) 1
          ++ [(gen_face_key m 1, 1)] :=
    KeyStore.counter_add_absent 1 hhasg1
  have hhasF : KeyStore.counter_has (KeyStore.counter_add
      (KeyStore.counter_add m.face_keys.counter (gen_face_key m 0) 1)
      (gen_face_key m 1) 1) c1.face_key = true := by
    rw [KeyStore.counter_has_add_ne _ _ hneF1, KeyStore.counter_has_add_ne _ _ hneF0]
    exact has_of_get_one hget
  refine ⟨?_, ?_, ?_, ?_⟩
  · rw [hcounter, hk0, hk1, KeyStore.keys_counter_add_present _ hhasF,
      KeyStore.keys_counter_add_absent _ hhasg1,
      KeyStore.keys_counter_add_absent _ hf0]
    simp
  · rw [hcounter, hk0, hk1, KeyStore.counter_get_add_ne _ _ (Ne.symm hneF0), hstep2,
      KeyStore.counter_get_append_left (by rw [KeyStore.counter_has_add_self]),
      hstep1, KeyStore.counter_get_append_fresh hf0]
  · rw [hcounter, hk0, hk1, KeyStore.counter_get_add_ne _ _ (Ne.symm hneF1), hstep2,
      KeyStore.counter_get_append_fresh hhasg1]
  · intro k hk0' hk1'
    rw [hcounter, hk0, hk1, KeyStore.counter_has_add_of_has hhasF, hstep2,
      KeyStore.counter_has_append_ne hk1', hstep1,
      KeyStore.counter_has_append_ne hk0']

/-! ## effect of `_delete_edge_cofacial` and `_delete_edge_non_cofacial` -/

theorem delete_edge_cofacial_effect (m : DLFLMesh) (c1 c2 : Corner)
    (hnodup : (m.face_keys.counter.map (·.1)).Nodup)
    (hget : KeyStore.counter_get m.face_keys.counter c1.face_key = 1)
    (hf0 : KeyStore.counter_has m.face_keys.counter (gen_face_key m 0) = false)
    (hf1 : KeyStore.counter_has m.face_keys.counter (gen_face_key m 1) = false)
    (h01 : gen_face_key m 0 ≠ gen_face_key m 1) :
    (delete_edge_cofacial m c1 c2).1 = (gen_face_key m 0, gen_face_key m 1) ∧
    live_faces (delete_edge_cofacial m c1 c2).2
      = ((live_faces m).erase c1.face_key) ++ [gen_face_key m 0, gen_face_key m 1] ∧
    face_vertices_of (delete_edge_cofacial m c1 c2).2 (gen_face_key m 0)
      = (if 1 < (circular_list.split_at_pair (circular_list.circulated_to_pair
            (face_vertices_of m c1.face_key) (c1.vertex_key, c2.vertex_key))
            (c2.vertex_key, c1.vertex_key)).1.length
         then (circular_list.split_at_pair (circular_list.circulated_to_pair
            (face_vertices_of m c1.face_key) (c1.vertex_key, c2.vertex_key))
            (c2.vertex_key, c1.vertex_key)).1.dropLast
         else (circular_list.split_at_pair (circular_list.circulated_to_pair
            (face_vertices_of m c1.face_key) (c1.vertex_key, c2.vertex_key))
            (c2.vertex_key, c1.vertex_key)).1) ∧
    face_vertices_of (delete_edge_cofacial m c1 c2).2 (gen_face_key m 1)
      = (if 1 < (circular_list.split_at_pair (circular_list.circulated_to_pair
            (face_vertices_of m c1.face_key) (c1.vertex_key, c2.vertex_key))
            (c2.vertex_key, c1.vertex_key)).2.length
         then (circular_list.split_at_pair (circular_list.circulated_to_pair
            (face_vertices_of m c1.face_key) (c1.vertex_key, c2.vertex_key))
            (c2.vertex_key, c1.vertex_key)).2.dropLast
         else (circular_list.split_at_pair (circular_list.circulated_to_pair
            (face_vertices_of m c1.face_key) (c1.vertex_key, c2.vertex_key))
            (c2.vertex_key, c1.vertex_key)).2) ∧
    (∀ f, f ≠ c1.face_key → f ≠ gen_face_key m 0 → f ≠ gen_face_key m 1 →
      face_vertices_of (delete_edge_cofacial m c1 c2).2 f = face_vertices_of m f) := by
  have hk0 : (create_face m).1 = gen_face_key m 0 := (gen_face_key_zero m).symm
  have hk1 : (create_face (create_face m).2).1 = gen_face_key m 1 := by
    rw [create_face_fst]
    exact next_key_after_create m hf0
  have hneF0 : c1.face_key ≠ gen_face_key m 0 := ne_of_get_one_not_has hget hf0
  have hneF1 : c1.face_key ≠ gen_face_key m 1 := ne_of_get_one_not_has hget hf1
  have hcounter : (delete_edge_cofacial m c1 c2).2.face_keys.counter
      = KeyStore.counter_add (KeyStore.counter_add
          (KeyStore.counter_add m.face_keys.counter ((create_face m).1) 1)
          ((create_face (create_face m).2).1) 1) c1.face_key (-1) := rfl
  have hfv : (delete_edge_cofacial m c1 c2).2.face_vertices
      = PyDict.del (PyDict.set (PyDict.set
          (PyDict.set (PyDict.set m.face_vertices ((create_face m).1) [])
            ((create_face (create_face m).2).1) [])
          ((create_face m).1)
          (if 1 < (circular_list.split_at_pair (circular_list.circulated_to_pair
              (PyDict.getd (PyDict.set (PyDict.set m.face_vertices ((create_face m).1) [])
                ((create_face (create_face m).2).1) []) c1.face_key [])
              (c1.vertex_key, c2.vertex_key)) (c2.vertex_key, c1.vertex_key)).1.length
           then (circular_list.split_at_pair (circular_list.circulated_to_pair
              (PyDict.getd (PyDict.set (PyDict.set m.face_vertices ((create_face m).1) [])
                ((create_face (create_face m).2).1) []) c1.face_key [])
              (c1.vertex_key, c2.vertex_key)) (c2.vertex_key, c1.vertex_key)).1.dropLast
           else (circular_list.split_at_pair (circular_list.circulated_to_pair
              (PyDict.getd (PyDict.set (PyDict.set m.face_vertices ((create_face m).1) [])
                ((create_face (create_face m).2).1) []) c1.face_key [])
              (c1.vertex_key, c2.vertex_key)) (c2.vertex_key, c1.vertex_key)).1))
          ((create_face (create_face m).2).1)
          (if 1 < (circular_list.split_at_pair (circular_list.circulated_to_pair
              (PyDict.getd (PyDict.set (PyDict.set m.face_vertices ((create_face m).1) [])
                ((create_face (create_face m).2).1) []) c1.face_key [])
              (c1.vertex_key, c2.vertex_key)) (c2.vertex_key, c1.vertex_key)).2.length
           then (circular_list.split_at_pair (circular_list.circulated_to_pair
              (PyDict.getd (PyDict.set (PyDict.set m.face_vertices ((create_face m).1) [])
                ((create_face (create_face m).2).1) []) c1.face_key [])
              (c1.vertex_key, c2.vertex_key)) (c2.vertex_key, c1.vertex_key)).2.dropLast
           else (circular_list.split_at_pair (circular_list.circulated_to_pair
              (PyDict.getd (PyDict.set (PyDict.set m.face_vertices ((create_face m).1) [])
                ((create_face (create_face m).2).1) []) c1.face_key [])
              (c1.vertex_key, c2.vertex_key)) (c2.vertex_key, c1.vertex_key)).2))
        c1.face_key := rfl
  have hret : (delete_edge_cofacial m c1 c2).1
      = ((create_face m).1, (create_face (create_face m).2).1) := rfl
  have hread : PyDict.getd (PyDict.set (PyDict.set m.face_vertices ((create_face m).1) [])
      ((create_face (create_face m).2).1) []) c1.face_key []
      = face_vertices_of m c1.face_key := by
    rw [hk0, hk1, PyDict.getd_set_ne _ _ _ hneF1, PyDict.getd_set_ne _ _ _ hneF0]
    rfl
  refine ⟨by rw [hret, hk0, hk1], ?_, ?_, ?_, ?_⟩
  · show KeyStore.counter_live (delete_edge_cofacial m c1 c2).2.face_keys.counter = _
    rw [hcounter, hk0, hk1]
    have hstep1 : KeyStore.counter_add m.face_keys.counter (gen_face_key m 0) 1
        = m.face_keys.counter ++ [(gen_face_key m 0, 1)] :=
      KeyStore.counter_add_absent 1 hf0
    have hhasg1 : KeyStore.counter_has
        (KeyStore.counter_add m.face_keys.counter (gen_face_key m 0) 1)
        (gen_face_key m 1) = false := by
      rw [hstep1, KeyStore.counter_has_append_ne (Ne.symm h01)]
      exact hf1
    have hstep2 : KeyStore.counter_add
        (KeyStore.counter_add m.face_keys.counter (gen_face_key m 0) 1)
        (gen_face_key m 1) 1
        = m.face_keys.counter ++ [(gen_face_key m 0, 1)] ++ [(gen_face_key m 1, 1)] := by
      rw [KeyStore.counter_add_absent 1 hhasg1, hstep1]
    have hlive2 : KeyStore.counter_live (KeyStore.counter_add
        (KeyStore.counter_add m.face_keys.counter (gen_face_key m 0) 1)
        (gen_face_key m 1) 1)
        = KeyStore.counter_live m.face_keys.counter
            ++ [gen_face_key m 0] ++ [gen_face_key m 1] := by
      rw [hstep2, KeyStore.counter_live_append_pos, KeyStore.counter_live_append_pos]
    have hkeys2 : ((KeyStore.counter_add
        (KeyStore.counter_add m.face_keys.counter (gen_face_key m 0) 1)
        (gen_face_key m 1) 1).map (·.1)).Nodup := by
      rw [hstep2]
      simp only [List.map_append, List.map_cons, List.map_nil]
      rw [List.nodup_append, List.nodup_append]
      refine ⟨⟨hnodup, List.nodup_singleton _, ?_⟩, List.nodup_singleton _, ?_⟩
      · intro a ha hb
        simp at hb
        exact not_mem_keys_of_not_has hf0 (hb ▸ ha)
      · intro a ha hb
        simp at hb
        subst hb
        rcases List.mem_append.1 ha with ha | ha
        · exact not_mem_keys_of_not_has hf1 ha
        · simp at ha
          exact h01 ha.symm
    have hgetF : KeyStore.counter_get (KeyStore.counter_add
        (KeyStore.counter_add m.face_keys.counter (gen_face_key m 0) 1)
        (gen_face_key m 1) 1) c1.face_key = 1 := by
      rw [KeyStore.counter_get_add_ne _ _ hneF1, KeyStore.counter_get_add_ne _ _ hneF0]
      exact hget
    have hhasF : KeyStore.counter_has (KeyStore.counter_add
        (KeyStore.counter_add m.face_keys.counter (gen_face_key m 0) 1)
        (gen_face_key m 1) 1) c1.face_key = true := by
      rw [KeyStore.counter_has_add_ne _ _ hneF1, KeyStore.counter_has_add_ne _ _ hneF0]
      exact has_of_get_one hget
    rw [KeyStore.counter_live_sub_one hkeys2 hgetF hhasF, hlive2]
    rw [List.append_assoc, List.erase_append_left _
      (KeyStore.mem_counter_live hget (has_of_get_one hget))]
    rfl
  · show PyDict.getd (delete_edge_cofacial m c1 c2).2.face_vertices (gen_face_key m 0) [] = _
    rw [hfv, hread, hk0, hk1]
    rw [PyDict.getd_del_ne _ _ (Ne.symm hneF0), PyDict.getd_set_ne _ _ _ h01,
      PyDict.getd_set_self]
  · show PyDict.getd (delete_edge_cofacial m c1 c2).2.face_vertices (gen_face_key m 1) [] = _
    rw [hfv, hread, hk0, hk1]
    rw [PyDict.getd_del_ne _ _ (Ne.symm hneF1), PyDict.getd_set_self]
  · intro f hfF hf0' hf1'
    show PyDict.getd (delete_edge_cofacial m c1 c2).2.face_vertices f [] = _
    rw [hfv, hk0, hk1]
    rw [PyDict.getd_del_ne _ _ hfF, PyDict.getd_set_ne _ _ _ hf1',
      PyDict.getd_set_ne _ _ _ hf0', PyDict.getd_set_ne _ _ _ hf1',
      PyDict.getd_set_ne _ _ _ hf0']
    rfl

theorem delete_edge_non_cofacial_effect (m : DLFLMesh) (c1 c2 : Corner)
    (hnodup : (m.face_keys.counter.map (·.1)).Nodup)
    (hget1 : KeyStore.counter_get m.face_keys.counter c1.face_key = 1)
    (hget2 : KeyStore.counter_get m.face_keys.counter c2.face_key = 1)
    (hne : c1.face_key ≠ c2.face_key)
    (hfresh : KeyStore.counter_has m.face_keys.counter (gen_face_key m 0) = false) :
    (delete_edge_non_cofacial m c1 c2).1 = (gen_face_key m 0, gen_face_key m 0) ∧
    live_faces (delete_edge_non_cofacial m c1 c2).2
      = (((live_faces m).erase c1.face_key).erase c2.face_key) ++ [gen_face_key m 0] ∧
    face_vertices_of (delete_edge_non_cofacial m c1 c2).2 (gen_face_key m 0)
      = (circular_list.circulated_to_item (face_vertices_of m c1.face_key)
          c1.vertex_key).dropLast
        ++ (circular_list.circulated_to_item (face_vertices_of m c2.face_key)
          c2.vertex_key).dropLast ∧
    (∀ f, f ≠ c1.face_key → f ≠ c2.face_key → f ≠ gen_face_key m 0 →
      face_vertices_of (delete_edge_non_cofacial m c1 c2).2 f = face_vertices_of m f) := by
  have hk0 : gen_face_key m 0 = m.face_keys.next_key := gen_face_key_zero m
  have hne1k : c1.face_key ≠ gen_face_key m 0 := ne_of_get_one_not_has hget1 hfresh
  have hne2k : c2.face_key ≠ gen_face_key m 0 := ne_of_get_one_not_has hget2 hfresh
  have hcounter : (delete_edge_non_cofacial m c1 c2).2.face_keys.counter
      = KeyStore.counter_add (KeyStore.counter_add
          (KeyStore.counter_add m.face_keys.counter m.face_keys.next_key 1)
          c1.face_key (-1)) c2.face_key (-1) := rfl
  have hfv : (delete_edge_non_cofacial m c1 c2).2.face_vertices
      = PyDict.del (PyDict.del
          (PyDict.set (PyDict.set m.face_vertices m.face_keys.next_key [])
            m.face_keys.next_key
            ((circular_list.circulated_to_item
              (PyDict.getd (PyDict.set m.face_vertices m.face_keys.next_key [])
                c1.face_key []) c1.vertex_key).dropLast
             ++ (circular_list.circulated_to_item
              (PyDict.getd (PyDict.set m.face_vertices m.face_keys.next_key [])
                c2.face_key []) c2.vertex_key).dropLast))
          c1.face_key) c2.face_key := rfl
  have hret : (delete_edge_non_cofacial m c1 c2).1
      = (m.face_keys.next_key, m.face_keys.next_key) := rfl
  have hread1 : PyDict.getd (PyDict.set m.face_vertices m.face_keys.next_key [])
      c1.face_key [] = face_vertices_of m c1.face_key := by
    rw [← hk0, PyDict.getd_set_ne _ _ _ hne1k]
    rfl
  have hread2 : PyDict.getd (PyDict.set m.face_vertices m.face_keys.next_key [])
      c2.face_key [] = face_vertices_of m c2.face_key := by
    rw [← hk0, PyDict.getd_set_ne _ _ _ hne2k]
    rfl
  refine ⟨by rw [hret, hk0], ?_, ?_, ?_⟩
  · show KeyStore.counter_live (delete_edge_non_cofacial m c1 c2).2.face_keys.counter = _
    rw [hcounter, ← hk0]
    have hstep1 : KeyStore.counter_add m.face_keys.counter (gen_face_key m 0) 1
        = m.face_keys.counter ++ [(gen_face_key m 0, 1)] :=
      KeyStore.counter_add_absent 1 hfresh
    have hlive1 : KeyStore.counter_live
        (KeyStore.counter_add m.face_keys.counter (gen_face_key m 0) 1)
        = KeyStore.counter_live m.face_keys.counter ++ [gen_face_key m 0] := by
      rw [hstep1, KeyStore.counter_live_append_pos]
    have hkeys1 : ((KeyStore.counter_add m.face_keys.counter (gen_face_key m 0) 1).map
        (·.1)).Nodup := by
      rw [hstep1]
      simp only [List.map_append, List.map_cons, List.map_nil]
      rw [List.nodup_append]
      exact ⟨hnodup, List.nodup_singleton _, by
        intro a ha hb
        simp at hb
        exact not_mem_keys_of_not_has hfresh (hb ▸ ha)⟩
    have hget1' : KeyStore.counter_get
        (KeyStore.counter_add m.face_keys.counter (gen_face_key m 0) 1) c1.face_key = 1 := by
      rw [KeyStore.counter_get_add_ne _ _ hne1k]
      exact hget1
    have hhas1' : KeyStore.counter_has
        (KeyStore.counter_add m.face_keys.counter (gen_face_key m 0) 1) c1.face_key = true := by
      rw [KeyStore.counter_has_add_ne _ _ hne1k]
      exact has_of_get_one hget1
    have hlive2 : KeyStore.counter_live (KeyStore.counter_add
        (KeyStore.counter_add m.face_keys.counter (gen_face_key m 0) 1) c1.face_key (-1))
        = ((KeyStore.counter_live m.face_keys.counter).erase c1.face_key)
            ++ [gen_face_key m 0] := by
      rw [KeyStore.counter_live_sub_one hkeys1 hget1' hhas1', hlive1,
        List.erase_append_left _ (KeyStore.mem_counter_live hget1 (has_of_get_one hget1))]
    have hkeys2 : ((KeyStore.counter_add (KeyStore.counter_add m.face_keys.counter
        (gen_face_key m 0) 1) c1.face_key (-1)).map (·.1)).Nodup := by
      rw [KeyStore.keys_counter_add_present _ hhas1']
      exact hkeys1
    have hget2' : KeyStore.counter_get (KeyStore.counter_add (KeyStore.counter_add
        m.face_keys.counter (gen_face_key m 0) 1) c1.face_key (-1)) c2.face_key = 1 := by
      rw [KeyStore.counter_get_add_ne _ _ hne.symm, KeyStore.counter_get_add_ne _ _ hne2k]
      exact hget2
    have hhas2' : KeyStore.counter_has (KeyStore.counter_add (KeyStore.counter_add
        m.face_keys.counter (gen_face_key m 0) 1) c1.face_key (-1)) c2.face_key = true := by
      rw [KeyStore.counter_has_add_ne _ _ hne.symm, KeyStore.counter_has_add_ne _ _ hne2k]
      exact has_of_get_one hget2
    rw [KeyStore.counter_live_sub_one hkeys2 hget2' hhas2', hlive2,
      List.erase_append_left _ (List.mem_erase_of_ne hne.symm |>.2
        (KeyStore.mem_counter_live hget2 (has_of_get_one hget2)))]
    rfl
  · show PyDict.getd (delete_edge_non_cofacial m c1 c2).2.face_vertices (gen_face_key m 0) [] = _
    rw [hfv, hread1, hread2, ← hk0]
    rw [PyDict.getd_del_ne _ _ (Ne.symm hne2k), PyDict.getd_del_ne _ _ (Ne.symm hne1k),
      PyDict.getd_set_self]
  · intro f hf1 hf2 hfk
    show PyDict.getd (delete_edge_non_cofacial m c1 c2).2.face_vertices f [] = _
    rw [hfv, ← hk0]
    rw [PyDict.getd_del_ne _ _ hf2, PyDict.getd_del_ne _ _ hf1,
      PyDict.getd_set_ne _ _ _ hfk, PyDict.getd_set_ne _ _ _ hfk]
    rfl

/-! ## list decomposition lemmas for the round trip -/

namespace circular_list

variable {α : Type} [DecidableEq α] [Inhabited α]

theorem first_occurrence_split {l : List α} {x : α} (h : x ∈ l) :
    ∃ A B, l = A ++ x :: B ∧ x ∉ A := by
  induction l with
  | nil => simp at h
  | cons a t ih =>
    by_cases hax : a = x
    · exact ⟨[], t, by simp [hax], by simp⟩
    · have hxt : x ∈ t := by
        rcases List.mem_cons.1 h with h' | h'
        · exact absurd h'.symm hax
        · exact h'
      rcases ih hxt with ⟨A, B, rfl, hxA⟩
      refine ⟨a :: A, B, rfl, ?_⟩
      intro hc
      rcases List.mem_cons.1 hc with h' | h'
      · exact hax h'.symm
      · exact hxA h'

theorem count_one_decomp {l : List α} {x : α} (h : l.count x = 1) :
    ∃ A B, l = A ++ x :: B ∧ x ∉ A ∧ x ∉ B := by
  have hmem : x ∈ l := by
    rw [← List.count_pos_iff]
    omega
  rcases first_occurrence_split hmem with ⟨A, B, rfl, hxA⟩
  refine ⟨A, B, rfl, hxA, ?_⟩
  have hA : A.count x = 0 := List.count_eq_zero.2 hxA
  have hc : (A ++ x :: B).count x = A.count x + (x :: B).count x :=
    List.count_append x A (x :: B)
  have hc2 : (x :: B).count x = B.count x + 1 := List.count_cons_self x B
  have hB : B.count x = 0 := by omega
  exact List.count_eq_zero.1 hB

theorem nodup_mem_decomp {l : List α} {x : α} (hnd : l.Nodup) (h : x ∈ l) :
    ∃ A B, l = A ++ x :: B ∧ x ∉ A ∧ x ∉ B := by
  rcases first_occurrence_split h with ⟨A, B, rfl, hxA⟩
  refine ⟨A, B, rfl, hxA, ?_⟩
  have := List.Nodup.of_append_right hnd
  exact (List.nodup_cons.1 this).1

theorem pairs_two (x y : α) : pairs [x, y] = [(x, y), (y, x)] := by
  simp [pairs, List.range_succ]

theorem split_at_pair_two (x y : α) (hxy : x ≠ y) :
    split_at_pair [x, y] (y, x) = ([x], [y]) := by
  have hidx : index_of (pairs [x, y]) (y, x) = 1 := by
    rw [pairs_two]
    simp [index_of, List.findIdx_cons, Prod.ext_iff, hxy]
  rw [split_at_pair, hidx, split_at]
  have hm : (1 + 2) % ([x, y] : List α).length = 1 := by simp
  rw [hm]
  rfl

theorem circulated_to_item_singleton (x : α) : circulated_to_item [x] x = [x] := by
  have h := circulated_to_item_concat (A := ([] : List α)) (B := ([] : List α)) (x := x)
    (by simp)
  simpa using h

theorem previous_item_singleton (x : α) : previous_item [x] x = x := by
  simp [previous_item, index_of, List.findIdx_cons]

theorem circulated_to_pair_two (x y : α) (hx : x ≠ y) :
    circulated_to_pair [x, y] (x, y) = [x, y] := by
  have h := circulated_to_pair_concat ([] : List α) ([] : List α) x y (by simp)
  simpa using h

/-- boundary restoration for a cofacial insertion followed by the
non-cofacial deletion on the two recomputed corners. -/
theorem cofacial_roundtrip_boundary {b : List α} {v1 v2 : α} (hv : v1 ≠ v2)
    (h1 : b.count v1 = 1) (h2 : b.count v2 = 1) :
    ((circulated_to_item
        ((split_at_item (circulated_to_item b v2) v1).1 ++ [v2]) v1).dropLast
      ++ (circulated_to_item
        ((split_at_item (circulated_to_item b v2) v1).2 ++ [v1]) v2).dropLast
    ).IsRotated b := by
  rcases count_one_decomp h2 with ⟨A, B, rfl, hv2A, hv2B⟩
  have hcti : circulated_to_item (A ++ v2 :: B) v2 = B ++ A ++ [v2] :=
    circulated_to_item_concat hv2A
  have hv1C : v1 ∈ B ++ A := by
    have hv1mem : v1 ∈ A ++ v2 :: B := by
      rw [← List.count_pos_iff]
      omega
    rcases List.mem_append.1 hv1mem with h | h
    · exact List.mem_append.2 (Or.inr h)
    · rcases List.mem_cons.1 h with h | h
      · exact absurd h hv
      · exact List.mem_append.2 (Or.inl h)
  have hcnt : (B ++ A).count v1 = 1 := by
    have hsplit : (A ++ v2 :: B).count v1 = A.count v1 + (v2 :: B).count v1 :=
      List.count_append v1 A (v2 :: B)
    have hcons : (v2 :: B).count v1 = B.count v1 :=
      List.count_cons_of_ne hv B
    have happ : (B ++ A).count v1 = B.count v1 + A.count v1 :=
      List.count_append v1 B A
    omega
  rcases count_one_decomp hcnt with ⟨P, S, hC, hv1P, hv1S⟩
  have hv2P : v2 ∉ P := by
    intro hc
    have hmem : v2 ∈ B ++ A := by
      rw [hC]
      exact List.mem_append.2 (Or.inl hc)
    rcases List.mem_append.1 hmem with h | h
    · exact hv2B h
    · exact hv2A h
  have hv2S : v2 ∉ S := by
    intro hc
    have hmem : v2 ∈ B ++ A := by
      rw [hC]
      exact List.mem_append.2 (Or.inr (List.mem_cons.2 (Or.inr hc)))
    rcases List.mem_append.1 hmem with h | h
    · exact hv2B h
    · exact hv2A h
  have hsplit : split_at_item (B ++ A ++ [v2]) v1 = (P ++ [v1], S ++ [v2]) := by
    rw [hC]
    have hre : (P ++ v1 :: S) ++ [v2] = P ++ v1 :: (S ++ [v2]) := by simp
    rw [hre]
    exact split_at_item_concat hv1P (by simp)
  rw [hcti, hsplit]
  have hnf1 : (P ++ [v1]) ++ [v2] = P ++ v1 :: [v2] := by simp
  have hnf2 : (S ++ [v2]) ++ [v1] = S ++ v2 :: [v1] := by simp
  rw [hnf1, hnf2, circulated_to_item_concat hv1P, circulated_to_item_concat hv2S]
  have hd1 : ([v2] ++ P ++ [v1]).dropLast = v2 :: P := by
    rw [List.dropLast_concat]
    rfl
  have hd2 : ([v1] ++ S ++ [v2]).dropLast = v1 :: S := by
    rw [List.dropLast_concat]
    rfl
  rw [hd1, hd2]
  refine ⟨B.length + 1, ?_⟩
  have hform : v2 :: P ++ v1 :: S = v2 :: (B ++ A) := by
    show v2 :: (P ++ v1 :: S) = v2 :: (B ++ A)
    rw [← hC]
  rw [hform]
  have hle : B.length + 1 ≤ (v2 :: (B ++ A)).length := by
    simp only [List.length_cons, List.length_append]
    omega
  rw [List.rotate_eq_drop_append_take hle]
  have hdrop : (v2 :: (B ++ A)).drop (B.length + 1) = A := by
    rw [List.drop_succ_cons, List.drop_left' rfl]
  have htake : (v2 :: (B ++ A)).take (B.length + 1) = v2 :: B := by
    rw [List.take_succ_cons, List.take_left' rfl]
  rw [hdrop, htake]

/-- boundary restoration for a non-cofacial insertion between two faces,
followed by the cofacial deletion on the two recomputed corners: the split
of the merged boundary yields the two original boundaries (swapped, each up
to rotation, each with its corner vertex re-appended before the final pop). -/
theorem noncofacial_roundtrip_big {b1 b2 : List α} {v1 v2 : α}
    (hnd1 : b1.Nodup) (hnd2 : b2.Nodup) (hm1 : v1 ∈ b1) (hm2 : v2 ∈ b2) :
    ∃ q r,
      split_at_pair (circulated_to_pair
          (circulated_to_item b1 v1 ++ circulated_to_item b2 (previous_item b2 v2)
            ++ [v2] ++ [v1]) (v1, v2)) (v2, v1)
        = (r ++ [v2, v1], q ++ [v1, v2]) ∧
      (r ++ [v2]).IsRotated b2 ∧ (q ++ [v1]).IsRotated b1 := by
  rcases nodup_mem_decomp hnd1 hm1 with ⟨A1, B1, rfl, hv1A, hv1B⟩
  rcases nodup_mem_decomp hnd2 hm2 with ⟨A2, B2, hb2, hv2A, hv2B⟩
  refine ⟨B1 ++ A1, B2 ++ A2, ?_, ?_, ?_⟩
  · have hc1 : circulated_to_item (A1 ++ v1 :: B1) v1 = B1 ++ A1 ++ [v1] :=
      circulated_to_item_concat hv1A
    have hc2 : circulated_to_item b2 (previous_item b2 v2) = v2 :: (B2 ++ A2) :=
      circulated_to_item_previous hnd2 hb2 hv2A
    rw [hc1, hc2]
    have hMB : B1 ++ A1 ++ [v1] ++ v2 :: (B2 ++ A2) ++ [v2] ++ [v1]
        = (B1 ++ A1) ++ v1 :: v2 :: ((B2 ++ A2) ++ v2 :: [v1]) := by
      simp
    rw [hMB]
    have hv1Q : v1 ∉ B1 ++ A1 := by
      intro hc
      rcases List.mem_append.1 hc with h | h
      · exact hv1B h
      · exact hv1A h
    have hv2R : v2 ∉ B2 ++ A2 := by
      intro hc
      rcases List.mem_append.1 hc with h | h
      · exact hv2B h
      · exact hv2A h
    rw [circulated_to_pair_concat _ _ _ _ hv1Q]
    have hrot : ((B2 ++ A2) ++ v2 :: [v1]) ++ (B1 ++ A1) ++ [v1, v2]
        = (B2 ++ A2) ++ v2 :: v1 :: ((B1 ++ A1) ++ [v1, v2]) := by
      simp
    rw [hrot, split_at_pair_concat _ _ _ _ hv2R (by simp)]
  · rw [hb2]
    refine List.IsRotated.symm ⟨A2.length + 1, ?_⟩
    have hle : A2.length + 1 ≤ (A2 ++ v2 :: B2).length := by
      simp only [List.length_append, List.length_cons]
      omega
    rw [List.rotate_eq_drop_append_take hle]
    have hform : A2 ++ v2 :: B2 = (A2 ++ [v2]) ++ B2 := by simp
    rw [hform, List.drop_left' (by simp : (A2 ++ [v2]).length = A2.length + 1),
      List.take_left' (by simp : (A2 ++ [v2]).length = A2.length + 1)]
    simp
  · refine List.IsRotated.symm ⟨A1.length + 1, ?_⟩
    have hle : A1.length + 1 ≤ (A1 ++ v1 :: B1).length := by
      simp only [List.length_append, List.length_cons]
      omega
    rw [List.rotate_eq_drop_append_take hle]
    have hform : A1 ++ v1 :: B1 = (A1 ++ [v1]) ++ B1 := by simp
    rw [hform, List.drop_left' (by simp : (A1 ++ [v1]).length = A1.length + 1),
      List.take_left' (by simp : (A1 ++ [v1]).length = A1.length + 1)]
    simp

end circular_list

/-! ## the C4 round trip, branch by branch -/

theorem corner_vertex_key (m : DLFLMesh) (f : FaceKey) (v : VertexKey) :
    (corner_from_face_vertex m f v).vertex_key = v := rfl

theorem insert_edge_eq_cofacial {m : DLFLMesh} {c1 c2 : Corner}
    (h : c1.face_key = c2.face_key) :
    insert_edge m c1 c2 = insert_edge_cofacial m c1 c2 := if_pos h

theorem insert_edge_eq_non_cofacial {m : DLFLMesh} {c1 c2 : Corner}
    (h : c1.face_key ≠ c2.face_key) :
    insert_edge m c1 c2 = insert_edge_non_cofacial m c1 c2 := if_neg h

theorem delete_edge_eq_cofacial {m : DLFLMesh} {c1 c2 : Corner}
    (h : c1.face_key = c2.face_key) :
    delete_edge m c1 c2 = delete_edge_cofacial m c1 c2 := if_pos h

theorem delete_edge_eq_non_cofacial {m : DLFLMesh} {c1 c2 : Corner}
    (h : c1.face_key ≠ c2.face_key) :
    delete_edge m c1 c2 = delete_edge_non_cofacial m c1 c2 := if_neg h

theorem forall2_map_rot {β γ : Type} {X : List β} {f g : β → List γ}
    (h : ∀ a ∈ X, f a = g a) :
    List.Forall₂ (fun p q => p.IsRotated q) (X.map f) (X.map g) := by
  induction X with
  | nil => simp
  | cons a t ih =>
    simp only [List.map_cons]
    exact List.Forall₂.cons (h a (by simp) ▸ List.IsRotated.refl _)
      (ih (fun b hb => h b (by simp [hb])))

theorem gen_face_keys_three (m : DLFLMesh) :
    gen_face_keys m 3 = [gen_face_key m 0, gen_face_key m 1, gen_face_key m 2] := rfl

/-- the cofacial branch of the round trip: insert an edge between two corners
of the same face (splitting it), then delete the new edge with corners
recomputed on the two new faces (merging them back). -/
theorem round_trip_cofacial (m : DLFLMesh) (c1 c2 : Corner)
    (hfc : c1.face_key = c2.face_key)
    (hvne : c1.vertex_key ≠ c2.vertex_key)
    (hedge : edge_key c1.vertex_key c2.vertex_key ∉ m.edge_keys)
    (hnodup : (m.face_keys.counter.map (·.1)).Nodup)
    (hget1 : KeyStore.counter_get m.face_keys.counter c1.face_key = 1)
    (hfresh : ∀ f ∈ gen_face_keys m 3,
      KeyStore.counter_has m.face_keys.counter f = false)
    (hgnodup : (gen_face_keys m 3).Nodup)
    (hc1 : (face_vertices_of m c1.face_key).count c1.vertex_key = 1)
    (hc2 : (face_vertices_of m c1.face_key).count c2.vertex_key = 1) :
    (round_trip m c1 c2).vertex_keys = m.vertex_keys ∧
    (round_trip m c1 c2).vertex_coordinates = m.vertex_coordinates ∧
    (round_trip m c1 c2).edge_keys = m.edge_keys ∧
    live_faces (round_trip m c1 c2)
      = (live_faces m).erase c1.face_key ++ [gen_face_key m 2] ∧
    (face_vertices_of (round_trip m c1 c2) (gen_face_key m 2)).IsRotated
      (face_vertices_of m c1.face_key) ∧
    (∀ f ∈ (live_faces m).erase c1.face_key,
      face_vertices_of (round_trip m c1 c2) f = face_vertices_of m f) := by
  have h0 : KeyStore.counter_has m.face_keys.counter (gen_face_key m 0) = false :=
    hfresh _ (by rw [gen_face_keys_three]; simp)
  have h1f : KeyStore.counter_has m.face_keys.counter (gen_face_key m 1) = false :=
    hfresh _ (by rw [gen_face_keys_three]; simp)
  have h2f : KeyStore.counter_has m.face_keys.counter (gen_face_key m 2) = false :=
    hfresh _ (by rw [gen_face_keys_three]; simp)
  have hnd3 := hgnodup
  rw [gen_face_keys_three] at hnd3
  have h01 : gen_face_key m 0 ≠ gen_face_key m 1 := by
    intro hc
    simp [hc] at hnd3
  have h02 : gen_face_key m 0 ≠ gen_face_key m 2 := by
    intro hc
    simp [hc] at hnd3
  have h12 : gen_face_key m 1 ≠ gen_face_key m 2 := by
    intro hc
    simp [hc] at hnd3
  obtain ⟨hret, hlive', hb0, hb1, hframe'⟩ :=
    insert_edge_cofacial_effect m c1 c2 hnodup hget1 h0 h1f h01
  obtain ⟨hkeys', hget0', hget1', hhasfr'⟩ :=
    insert_edge_cofacial_counter m c1 c2 hget1 h0 h1f h01
  have hins : insert_edge m c1 c2 = insert_edge_cofacial m c1 c2 :=
    insert_edge_eq_cofacial hfc
  have he1 : (insert_edge m c1 c2).1.1 = gen_face_key m 0 := by rw [hins, hret]
  have he2 : (insert_edge m c1 c2).1.2 = gen_face_key m 1 := by rw [hins, hret]
  have hrt : round_trip m c1 c2
      = (delete_edge_non_cofacial (insert_edge_cofacial m c1 c2).2
          (corner_from_face_vertex (insert_edge_cofacial m c1 c2).2
            (gen_face_key m 0) c1.vertex_key)
          (corner_from_face_vertex (insert_edge_cofacial m c1 c2).2
            (gen_face_key m 1) c2.vertex_key)).2 := by
    show (delete_edge (insert_edge m c1 c2).2
        (corner_from_face_vertex (insert_edge m c1 c2).2
          (insert_edge m c1 c2).1.1 c1.vertex_key)
        (corner_from_face_vertex (insert_edge m c1 c2).2
          (insert_edge m c1 c2).1.2 c2.vertex_key)).2 = _
    rw [he1, he2, hins, delete_edge_eq_non_cofacial
      (show (corner_from_face_vertex (insert_edge_cofacial m c1 c2).2
          (gen_face_key m 0) c1.vertex_key).face_key
        ≠ (corner_from_face_vertex (insert_edge_cofacial m c1 c2).2
          (gen_face_key m 1) c2.vertex_key).face_key from h01)]
  have hnodup' : ((insert_edge_cofacial m c1 c2).2.face_keys.counter.map (·.1)).Nodup := by
    rw [hkeys']
    rw [List.nodup_append]
    refine ⟨hnodup, by simp [h01], ?_⟩
    intro a ha hb
    rcases List.mem_cons.1 hb with hb | hb
    · exact not_mem_keys_of_not_has h0 (hb ▸ ha)
    · rcases List.mem_cons.1 hb with hb | hb
      · exact not_mem_keys_of_not_has h1f (hb ▸ ha)
      · simp at hb
  have hlen' : (insert_edge_cofacial m c1 c2).2.face_keys.counter.length
      = m.face_keys.counter.length + 2 := by
    have hl := congrArg List.length hkeys'
    simpa using hl
  have hshift : gen_face_key (insert_edge_cofacial m c1 c2).2 0 = gen_face_key m 2 := by
    have := gen_face_key_shift 2 hlen' rfl rfl 0
    simpa using this
  have hfresh'' : KeyStore.counter_has (insert_edge_cofacial m c1 c2).2.face_keys.counter
      (gen_face_key (insert_edge_cofacial m c1 c2).2 0) = false := by
    rw [hshift, hhasfr' _ (Ne.symm h02) (Ne.symm h12)]
    exact h2f
  obtain ⟨-, hdlive, hdb, hdframe⟩ :=
    delete_edge_non_cofacial_effect (insert_edge_cofacial m c1 c2).2
      (corner_from_face_vertex (insert_edge_cofacial m c1 c2).2
        (gen_face_key m 0) c1.vertex_key)
      (corner_from_face_vertex (insert_edge_cofacial m c1 c2).2
        (gen_face_key m 1) c2.vertex_key)
      hnodup' hget0' hget1' h01 hfresh''
  rw [corner_face_key, corner_face_key, corner_vertex_key, corner_vertex_key] at hdb
  rw [corner_face_key, corner_face_key] at hdlive hdframe
  rw [hshift] at hdlive hdb hdframe
  have hFmem : c1.face_key ∈ live_faces m :=
    KeyStore.mem_counter_live hget1 (has_of_get_one hget1)
  have hg0nl : gen_face_key m 0 ∉ (live_faces m).erase c1.face_key := by
    intro hc
    exact not_mem_keys_of_not_has h0
      (KeyStore.counter_live_subset_keys (List.mem_of_mem_erase hc))
  have hg1nl : gen_face_key m 1 ∉ (live_faces m).erase c1.face_key := by
    intro hc
    exact not_mem_keys_of_not_has h1f
      (KeyStore.counter_live_subset_keys (List.mem_of_mem_erase hc))
  have hlive'' : live_faces (round_trip m c1 c2)
      = (live_faces m).erase c1.face_key ++ [gen_face_key m 2] := by
    rw [hrt, hdlive, hlive', List.erase_append_right _ hg0nl]
    have h1e : ([gen_face_key m 0, gen_face_key m 1].erase (gen_face_key m 0))
        = [gen_face_key m 1] := by simp
    rw [h1e, List.erase_append_right _ hg1nl]
    simp
  refine ⟨by rw [hrt]; rfl, by rw [hrt]; rfl, ?_, hlive'', ?_, ?_⟩
  · rw [hrt]
    have hek : (delete_edge_non_cofacial (insert_edge_cofacial m c1 c2).2
        (corner_from_face_vertex (insert_edge_cofacial m c1 c2).2
          (gen_face_key m 0) c1.vertex_key)
        (corner_from_face_vertex (insert_edge_cofacial m c1 c2).2
          (gen_face_key m 1) c2.vertex_key)).2.edge_keys
        = (insert (edge_key c1.vertex_key c2.vertex_key) m.edge_keys).erase
            (edge_key c1.vertex_key c2.vertex_key) := rfl
    rw [hek]
    exact Finset.erase_insert hedge
  · rw [hrt, hdb, hb0, hb1]
    exact circular_list.cofacial_roundtrip_boundary hvne hc1 hc2
  · intro f hfm
    have hnd := KeyStore.counter_live_nodup hnodup
    have hfF : f ≠ c1.face_key := ((List.Nodup.mem_erase_iff hnd).1 hfm).1
    have hfl : f ∈ live_faces m := List.mem_of_mem_erase hfm
    have hkeysf : f ∈ m.face_keys.counter.map (·.1) :=
      KeyStore.counter_live_subset_keys hfl
    have hf0 : f ≠ gen_face_key m 0 := by
      intro hc
      exact not_mem_keys_of_not_has h0 (hc ▸ hkeysf)
    have hf1d : f ≠ gen_face_key m 1 := by
      intro hc
      exact not_mem_keys_of_not_has h1f (hc ▸ hkeysf)
    have hf2d : f ≠ gen_face_key m 2 := by
      intro hc
      exact not_mem_keys_of_not_has h2f (hc ▸ hkeysf)
    rw [hrt, hdframe f hf0 hf1d hf2d]
    exact hframe' f hfF hf0 hf1d

/-- the non-cofacial branch of the round trip: insert an edge between corners
of two different faces (merging them), then delete the new edge with both
corners recomputed on the merged face (splitting it back). -/
theorem round_trip_non_cofacial (m : DLFLMesh) (c1 c2 : Corner)
    (hfc : c1.face_key ≠ c2.face_key)
    (hvne : c1.vertex_key ≠ c2.vertex_key)
    (hedge : edge_key c1.vertex_key c2.vertex_key ∉ m.edge_keys)
    (hnodup : (m.face_keys.counter.map (·.1)).Nodup)
    (hget1 : KeyStore.counter_get m.face_keys.counter c1.face_key = 1)
    (hget2 : KeyStore.counter_get m.face_keys.counter c2.face_key = 1)
    (hfresh : ∀ f ∈ gen_face_keys m 3,
      KeyStore.counter_has m.face_keys.counter f = false)
    (hgnodup : (gen_face_keys m 3).Nodup)
    (hnd1 : (face_vertices_of m c1.face_key).Nodup)
    (hnd2 : (face_vertices_of m c2.face_key).Nodup)
    (hm1 : c1.vertex_key ∈ face_vertices_of m c1.face_key)
    (hm2 : c2.vertex_key ∈ face_vertices_of m c2.face_key)
    (hlen : (face_vertices_of m c1.face_key).length = 1 ∧
        (face_vertices_of m c2.face_key).length = 1 ∨
      1 < (face_vertices_of m c1.face_key).length ∧
        1 < (face_vertices_of m c2.face_key).length) :
    (round_trip m c1 c2).vertex_keys = m.vertex_keys ∧
    (round_trip m c1 c2).vertex_coordinates = m.vertex_coordinates ∧
    (round_trip m c1 c2).edge_keys = m.edge_keys ∧
    live_faces (round_trip m c1 c2)
      = ((live_faces m).erase c1.face_key).erase c2.face_key
        ++ [gen_face_key m 1, gen_face_key m 2] ∧
    ((face_vertices_of (round_trip m c1 c2) (gen_face_key m 1)).IsRotated
        (face_vertices_of m c2.face_key) ∧
      (face_vertices_of (round_trip m c1 c2) (gen_face_key m 2)).IsRotated
        (face_vertices_of m c1.face_key) ∨
     (face_vertices_of (round_trip m c1 c2) (gen_face_key m 1)).IsRotated
        (face_vertices_of m c1.face_key) ∧
      (face_vertices_of (round_trip m c1 c2) (gen_face_key m 2)).IsRotated
        (face_vertices_of m c2.face_key)) ∧
    (∀ f ∈ ((live_faces m).erase c1.face_key).erase c2.face_key,
      face_vertices_of (round_trip m c1 c2) f = face_vertices_of m f) := by
  have h0 : KeyStore.counter_has m.face_keys.counter (gen_face_key m 0) = false :=
    hfresh _ (by rw [gen_face_keys_three]; simp)
  have h1f : KeyStore.counter_has m.face_keys.counter (gen_face_key m 1) = false :=
    hfresh _ (by rw [gen_face_keys_three]; simp)
  have h2f : KeyStore.counter_has m.face_keys.counter (gen_face_key m 2) = false :=
    hfresh _ (by rw [gen_face_keys_three]; simp)
  have hnd3 := hgnodup
  rw [gen_face_keys_three] at hnd3
  have h01 : gen_face_key m 0 ≠ gen_face_key m 1 := by
    intro hc
    simp [hc] at hnd3
  have h02 : gen_face_key m 0 ≠ gen_face_key m 2 := by
    intro hc
    simp [hc] at hnd3
  have h12 : gen_face_key m 1 ≠ gen_face_key m 2 := by
    intro hc
    simp [hc] at hnd3
  obtain ⟨hret, hlive', hb0, hframe'⟩ :=
    insert_edge_non_cofacial_effect m c1 c2 hnodup hget1 hget2 hfc h0
  obtain ⟨hkeys', hget0', hhasfr'⟩ :=
    insert_edge_non_cofacial_counter m c1 c2 hget1 hget2 h0
  have hins : insert_edge m c1 c2 = insert_edge_non_cofacial m c1 c2 :=
    insert_edge_eq_non_cofacial hfc
  have he1 : (insert_edge m c1 c2).1.1 = gen_face_key m 0 := by rw [hins, hret]
  have he2 : (insert_edge m c1 c2).1.2 = gen_face_key m 0 := by rw [hins, hret]
  have hrt : round_trip m c1 c2
      = (delete_edge_cofacial (insert_edge_non_cofacial m c1 c2).2
          (corner_from_face_vertex (insert_edge_non_cofacial m c1 c2).2
            (gen_face_key m 0) c1.vertex_key)
          (corner_from_face_vertex (insert_edge_non_cofacial m c1 c2).2
            (gen_face_key m 0) c2.vertex_key)).2 := by
    show (delete_edge (insert_edge m c1 c2).2
        (corner_from_face_vertex (insert_edge m c1 c2).2
          (insert_edge m c1 c2).1.1 c1.vertex_key)
        (corner_from_face_vertex (insert_edge m c1 c2).2
          (insert_edge m c1 c2).1.2 c2.vertex_key)).2 = _
    rw [he1, he2, hins, delete_edge_eq_cofacial
      (show (corner_from_face_vertex (insert_edge_non_cofacial m c1 c2).2
          (gen_face_key m 0) c1.vertex_key).face_key
        = (corner_from_face_vertex (insert_edge_non_cofacial m c1 c2).2
          (gen_face_key m 0) c2.vertex_key).face_key from rfl)]
  have hnodup' : ((insert_edge_non_cofacial m c1 c2).2.face_keys.counter.map
      (·.1)).Nodup := by
    rw [hkeys']
    rw [List.nodup_append]
    refine ⟨hnodup, List.nodup_singleton _, ?_⟩
    intro a ha hb
    simp at hb
    exact not_mem_keys_of_not_has h0 (hb ▸ ha)
  have hlen' : (insert_edge_non_cofacial m c1 c2).2.face_keys.counter.length
      = m.face_keys.counter.length + 1 := by
    have hl := congrArg List.length hkeys'
    simpa using hl
  have hshift0 : gen_face_key (insert_edge_non_cofacial m c1 c2).2 0
      = gen_face_key m 1 := by
    have := gen_face_key_shift 1 hlen' rfl rfl 0
    simpa using this
  have hshift1 : gen_face_key (insert_edge_non_cofacial m c1 c2).2 1
      = gen_face_key m 2 := by
    have := gen_face_key_shift 1 hlen' rfl rfl 1
    simpa using this
  have hf0'' : KeyStore.counter_has
      (insert_edge_non_cofacial m c1 c2).2.face_keys.counter
      (gen_face_key (insert_edge_non_cofacial m c1 c2).2 0) = false := by
    rw [hshift0, hhasfr' _ (Ne.symm h01)]
    exact h1f
  have hf1'' : KeyStore.counter_has
      (insert_edge_non_cofacial m c1 c2).2.face_keys.counter
      (gen_face_key (insert_edge_non_cofacial m c1 c2).2 1) = false := by
    rw [hshift1, hhasfr' _ (Ne.symm h02)]
    exact h2f
  have h01'' : gen_face_key (insert_edge_non_cofacial m c1 c2).2 0
      ≠ gen_face_key (insert_edge_non_cofacial m c1 c2).2 1 := by
    rw [hshift0, hshift1]
    exact h12
  obtain ⟨-, hdlive, hdb1, hdb2, hdframe⟩ :=
    delete_edge_cofacial_effect (insert_edge_non_cofacial m c1 c2).2
      (corner_from_face_vertex (insert_edge_non_cofacial m c1 c2).2
        (gen_face_key m 0) c1.vertex_key)
      (corner_from_face_vertex (insert_edge_non_cofacial m c1 c2).2
        (gen_face_key m 0) c2.vertex_key)
      hnodup' hget0' hf0'' hf1'' h01''
  rw [corner_face_key, corner_vertex_key, corner_vertex_key, hb0] at hdb1 hdb2
  rw [corner_face_key] at hdlive hdframe
  rw [hshift0, hshift1] at hdlive hdframe
  rw [hshift0] at hdb1
  rw [hshift1] at hdb2
  have hg0nl : gen_face_key m 0
      ∉ ((live_faces m).erase c1.face_key).erase c2.face_key := by
    intro hc
    exact not_mem_keys_of_not_has h0
      (KeyStore.counter_live_subset_keys
        (List.mem_of_mem_erase (List.mem_of_mem_erase hc)))
  have hlive'' : live_faces (round_trip m c1 c2)
      = ((live_faces m).erase c1.face_key).erase c2.face_key
        ++ [gen_face_key m 1, gen_face_key m 2] := by
    rw [hrt, hdlive, hlive', List.erase_append_right _ hg0nl]
    simp
  refine ⟨by rw [hrt]; rfl, by rw [hrt]; rfl, ?_, hlive'', ?_, ?_⟩
  · rw [hrt]
    have hek : (delete_edge_cofacial (insert_edge_non_cofacial m c1 c2).2
        (corner_from_face_vertex (insert_edge_non_cofacial m c1 c2).2
          (gen_face_key m 0) c1.vertex_key)
        (corner_from_face_vertex (insert_edge_non_cofacial m c1 c2).2
          (gen_face_key m 0) c2.vertex_key)).2.edge_keys
        = (insert (edge_key c1.vertex_key c2.vertex_key) m.edge_keys).erase
            (edge_key c1.vertex_key c2.vertex_key) := rfl
    rw [hek]
    exact Finset.erase_insert hedge
  · rcases hlen with ⟨hl1, hl2⟩ | ⟨hl1, hl2⟩
    · -- both faces are point-spheres: the trip restores them in order
      obtain ⟨a1, ha1⟩ := List.length_eq_one.1 hl1
      obtain ⟨a2, ha2⟩ := List.length_eq_one.1 hl2
      have hb1v : face_vertices_of m c1.face_key = [c1.vertex_key] := by
        rw [ha1] at hm1 ⊢
        simp at hm1
        rw [hm1]
      have hb2v : face_vertices_of m c2.face_key = [c2.vertex_key] := by
        rw [ha2] at hm2 ⊢
        simp at hm2
        rw [hm2]
      have hmb : merged_boundary m c1 c2 = [c1.vertex_key, c2.vertex_key] := by
        show circular_list.circulated_to_item (face_vertices_of m c1.face_key)
            c1.vertex_key
          ++ circular_list.circulated_to_item (face_vertices_of m c2.face_key)
            (circular_list.previous_item (face_vertices_of m c2.face_key)
              c2.vertex_key)
          ++ (if 1 < (face_vertices_of m c2.face_key).length
              then [c2.vertex_key] else [])
          ++ (if 1 < (face_vertices_of m c1.face_key).length
              then [c1.vertex_key] else []) = _
        rw [hb1v, hb2v, circular_list.previous_item_singleton,
          circular_list.circulated_to_item_singleton,
          circular_list.circulated_to_item_singleton,
          if_neg (by simp), if_neg (by simp)]
        simp
      have hsp2 : circular_list.split_at_pair (circular_list.circulated_to_pair
          (merged_boundary m c1 c2) (c1.vertex_key, c2.vertex_key))
          (c2.vertex_key, c1.vertex_key) = ([c1.vertex_key], [c2.vertex_key]) := by
        rw [hmb, circular_list.circulated_to_pair_two _ _ hvne,
          circular_list.split_at_pair_two _ _ hvne]
      refine Or.inr ⟨?_, ?_⟩
      · rw [hrt, hdb1, hsp2, hb1v]
        show (if 1 < ([c1.vertex_key] : List VertexKey).length
            then ([c1.vertex_key] : List VertexKey).dropLast
            else [c1.vertex_key]).IsRotated [c1.vertex_key]
        rw [if_neg (by simp)]
      · rw [hrt, hdb2, hsp2, hb2v]
        show (if 1 < ([c2.vertex_key] : List VertexKey).length
            then ([c2.vertex_key] : List VertexKey).dropLast
            else [c2.vertex_key]).IsRotated [c2.vertex_key]
        rw [if_neg (by simp)]
    · -- both faces have at least two boundary vertices: restored swapped
      have hmb : merged_boundary m c1 c2
          = circular_list.circulated_to_item (face_vertices_of m c1.face_key)
              c1.vertex_key
            ++ circular_list.circulated_to_item (face_vertices_of m c2.face_key)
              (circular_list.previous_item (face_vertices_of m c2.face_key)
                c2.vertex_key)
            ++ [c2.vertex_key] ++ [c1.vertex_key] := by
        show circular_list.circulated_to_item (face_vertices_of m c1.face_key)
            c1.vertex_key
          ++ circular_list.circulated_to_item (face_vertices_of m c2.face_key)
            (circular_list.previous_item (face_vertices_of m c2.face_key)
              c2.vertex_key)
          ++ (if 1 < (face_vertices_of m c2.face_key).length
              then [c2.vertex_key] else [])
          ++ (if 1 < (face_vertices_of m c1.face_key).length
              then [c1.vertex_key] else []) = _
        rw [if_pos hl2, if_pos hl1]
      obtain ⟨q, r, hsp, hr2, hr1⟩ :=
        circular_list.noncofacial_roundtrip_big hnd1 hnd2 hm1 hm2
      rw [hmb] at hdb1 hdb2
      rw [hsp] at hdb1 hdb2
      refine Or.inl ⟨?_, ?_⟩
      · rw [hrt, hdb1]
        show (if 1 < (r ++ [c2.vertex_key, c1.vertex_key]).length
            then (r ++ [c2.vertex_key, c1.vertex_key]).dropLast
            else r ++ [c2.vertex_key, c1.vertex_key]).IsRotated
          (face_vertices_of m c2.face_key)
        rw [if_pos (by simp),
          show r ++ [c2.vertex_key, c1.vertex_key]
            = (r ++ [c2.vertex_key]) ++ [c1.vertex_key] from by simp,
          List.dropLast_concat]
        exact hr2
      · rw [hrt, hdb2]
        show (if 1 < (q ++ [c1.vertex_key, c2.vertex_key]).length
            then (q ++ [c1.vertex_key, c2.vertex_key]).dropLast
            else q ++ [c1.vertex_key, c2.vertex_key]).IsRotated
          (face_vertices_of m c1.face_key)
        rw [if_pos (by simp),
          show q ++ [c1.vertex_key, c2.vertex_key]
            = (q ++ [c1.vertex_key]) ++ [c2.vertex_key] from by simp,
          List.dropLast_concat]
        exact hr1
  · intro f hfm
    have hnd := KeyStore.counter_live_nodup hnodup
    have hnde : ((live_faces m).erase c1.face_key).Nodup := List.Nodup.erase _ hnd
    have hfF2 : f ≠ c2.face_key := ((List.Nodup.mem_erase_iff hnde).1 hfm).1
    have hfm1 : f ∈ (live_faces m).erase c1.face_key := List.mem_of_mem_erase hfm
    have hfF1 : f ≠ c1.face_key := ((List.Nodup.mem_erase_iff hnd).1 hfm1).1
    have hfl : f ∈ live_faces m := List.mem_of_mem_erase hfm1
    have hkeysf : f ∈ m.face_keys.counter.map (·.1) :=
      KeyStore.counter_live_subset_keys hfl
    have hf0d : f ≠ gen_face_key m 0 := by
      intro hc
      exact not_mem_keys_of_not_has h0 (hc ▸ hkeysf)
    have hf1d : f ≠ gen_face_key m 1 := by
      intro hc
      exact not_mem_keys_of_not_has h1f (hc ▸ hkeysf)
    have hf2d : f ≠ gen_face_key m 2 := by
      intro hc
      exact not_mem_keys_of_not_has h2f (hc ▸ hkeysf)
    rw [hrt, hdframe f hf0d hf1d hf2d]
    exact hframe' f hfF1 hfF2 hf0d

/-- **C4** (amended).  For corners `c1, c2` with distinct vertices whose edge
is not yet recorded, on a mesh whose face-key store is duplicate-free with the
two corner faces live exactly once and three fresh generated keys, and whose
corner boundaries are well-formed (cofacial case: each corner vertex occurs
exactly once on the shared boundary; non-cofacial case: both boundaries
duplicate-free and containing their corner vertex, and the two faces either
both point-spheres or both with at least two boundary vertices),
`insert_edge` followed by `delete_edge` on the recomputed corners restores the
vertex store, the coordinates, the edge set, the face count, and the multiset
of face boundaries up to rotation.  The spec's unconditional claim fails
without the both-or-neither point-sphere side condition
(`insert_delete_point_sphere_loss`). -/
theorem insert_delete_round_trip (m : DLFLMesh) (c1 c2 : Corner)
    (hvne : c1.vertex_key ≠ c2.vertex_key)
    (hedge : edge_key c1.vertex_key c2.vertex_key ∉ m.edge_keys)
    (hnodup : (m.face_keys.counter.map (·.1)).Nodup)
    (hget1 : KeyStore.counter_get m.face_keys.counter c1.face_key = 1)
    (hget2 : KeyStore.counter_get m.face_keys.counter c2.face_key = 1)
    (hfresh : ∀ f ∈ gen_face_keys m 3,
      KeyStore.counter_has m.face_keys.counter f = false)
    (hgnodup : (gen_face_keys m 3).Nodup)
    (hco : c1.face_key = c2.face_key →
      (face_vertices_of m c1.face_key).count c1.vertex_key = 1 ∧
      (face_vertices_of m c1.face_key).count c2.vertex_key = 1)
    (hnc : c1.face_key ≠ c2.face_key →
      (face_vertices_of m c1.face_key).Nodup ∧
      (face_vertices_of m c2.face_key).Nodup ∧
      c1.vertex_key ∈ face_vertices_of m c1.face_key ∧
      c2.vertex_key ∈ face_vertices_of m c2.face_key ∧
      ((face_vertices_of m c1.face_key).length = 1 ∧
        (face_vertices_of m c2.face_key).length = 1 ∨
       1 < (face_vertices_of m c1.face_key).length ∧
        1 < (face_vertices_of m c2.face_key).length)) :
    (round_trip m c1 c2).vertex_keys = m.vertex_keys ∧
    (round_trip m c1 c2).vertex_coordinates = m.vertex_coordinates ∧
    (round_trip m c1 c2).edge_keys = m.edge_keys ∧
    (live_faces (round_trip m c1 c2)).length = (live_faces m).length ∧
    ∃ L, ((live_faces m).map (face_vertices_of m)).Perm L ∧
      List.Forall₂ (fun p q => p.IsRotated q)
        ((live_faces (round_trip m c1 c2)).map
          (face_vertices_of (round_trip m c1 c2))) L := by
  by_cases hfc : c1.face_key = c2.face_key
  · obtain ⟨hc1, hc2⟩ := hco hfc
    obtain ⟨hvk, hvc, hek, hlive, hrot, hframe⟩ :=
      round_trip_cofacial m c1 c2 hfc hvne hedge hnodup hget1 hfresh hgnodup hc1 hc2
    have hFmem : c1.face_key ∈ live_faces m :=
      KeyStore.mem_counter_live hget1 (has_of_get_one hget1)
    refine ⟨hvk, hvc, hek, ?_, ?_⟩
    · rw [hlive, List.length_append, List.length_erase_of_mem hFmem]
      have hpos : 0 < (live_faces m).length := List.length_pos_of_mem hFmem
      simp only [List.length_cons, List.length_nil]
      omega
    · refine ⟨((live_faces m).erase c1.face_key).map (face_vertices_of m)
        ++ [face_vertices_of m c1.face_key], ?_, ?_⟩
      · have hp1 : (live_faces m).Perm
            (c1.face_key :: (live_faces m).erase c1.face_key) :=
          List.perm_cons_erase hFmem
        have hp2 := hp1.map (face_vertices_of m)
        simp only [List.map_cons] at hp2
        exact hp2.trans (List.perm_append_singleton _ _).symm
      · rw [hlive]
        simp only [List.map_append, List.map_cons, List.map_nil]
        exact List.rel_append (forall2_map_rot hframe)
          (List.Forall₂.cons hrot List.Forall₂.nil)
  · obtain ⟨hnd1, hnd2, hm1, hm2, hlen⟩ := hnc hfc
    obtain ⟨hvk, hvc, hek, hlive, hrots, hframe⟩ :=
      round_trip_non_cofacial m c1 c2 hfc hvne hedge hnodup hget1 hget2 hfresh
        hgnodup hnd1 hnd2 hm1 hm2 hlen
    have hnd := KeyStore.counter_live_nodup hnodup
    have hF1 : c1.face_key ∈ live_faces m :=
      KeyStore.mem_counter_live hget1 (has_of_get_one hget1)
    have hF2 : c2.face_key ∈ live_faces m :=
      KeyStore.mem_counter_live hget2 (has_of_get_one hget2)
    have hF2e : c2.face_key ∈ (live_faces m).erase c1.face_key :=
      (List.Nodup.mem_erase_iff hnd).2 ⟨Ne.symm hfc, hF2⟩
    have hperm0 : ((live_faces m).map (face_vertices_of m)).Perm
        (face_vertices_of m c1.face_key :: face_vertices_of m c2.face_key ::
          (((live_faces m).erase c1.face_key).erase c2.face_key).map
            (face_vertices_of m)) := by
      have hp1 : (live_faces m).Perm
          (c1.face_key :: (live_faces m).erase c1.face_key) :=
        List.perm_cons_erase hF1
      have hp2 : ((live_faces m).erase c1.face_key).Perm
          (c2.face_key :: ((live_faces m).erase c1.face_key).erase c2.face_key) :=
        List.perm_cons_erase hF2e
      have hp3 := (hp1.trans (hp2.cons c1.face_key)).map (face_vertices_of m)
      simpa using hp3
    refine ⟨hvk, hvc, hek, ?_, ?_⟩
    · rw [hlive, List.length_append,
        List.length_erase_of_mem hF2e, List.length_erase_of_mem hF1]
      have hpos1 : 0 < (live_faces m).length := List.length_pos_of_mem hF1
      have hpos2 : 0 < ((live_faces m).erase c1.face_key).length :=
        List.length_pos_of_mem hF2e
      rw [List.length_erase_of_mem hF1] at hpos2
      simp only [List.length_cons, List.length_nil]
      omega
    · rcases hrots with ⟨hg1, hg2⟩ | ⟨hg1, hg2⟩
      · refine ⟨(((live_faces m).erase c1.face_key).erase c2.face_key).map
            (face_vertices_of m)
          ++ [face_vertices_of m c2.face_key, face_vertices_of m c1.face_key],
          ?_, ?_⟩
        · have hsw : ((((live_faces m).erase c1.face_key).erase c2.face_key).map
              (face_vertices_of m)
              ++ [face_vertices_of m c2.face_key,
                face_vertices_of m c1.face_key]).Perm
              (face_vertices_of m c1.face_key :: face_vertices_of m c2.face_key ::
                (((live_faces m).erase c1.face_key).erase c2.face_key).map
                  (face_vertices_of m)) := by
            have h1 : (((live_faces m).erase c1.face_key).erase c2.face_key).map
                (face_vertices_of m)
                ++ [face_vertices_of m c2.face_key, face_vertices_of m c1.face_key]
                = ((((live_faces m).erase c1.face_key).erase c2.face_key).map
                    (face_vertices_of m) ++ [face_vertices_of m c2.face_key])
                  ++ [face_vertices_of m c1.face_key] := by simp
            rw [h1]
            exact (List.perm_append_singleton _ _).trans
              ((List.perm_append_singleton _ _).cons _)
          exact hperm0.trans hsw.symm
        · rw [hlive]
          simp only [List.map_append, List.map_cons, List.map_nil]
          exact List.rel_append (forall2_map_rot hframe)
            (List.Forall₂.cons hg1 (List.Forall₂.cons hg2 List.Forall₂.nil))
      · refine ⟨(((live_faces m).erase c1.face_key).erase c2.face_key).map
            (face_vertices_of m)
          ++ [face_vertices_of m c1.face_key, face_vertices_of m c2.face_key],
          ?_, ?_⟩
        · have hsw : ((((live_faces m).erase c1.face_key).erase c2.face_key).map
              (face_vertices_of m)
              ++ [face_vertices_of m c1.face_key,
                face_vertices_of m c2.face_key]).Perm
              (face_vertices_of m c2.face_key :: face_vertices_of m c1.face_key ::
                (((live_faces m).erase c1.face_key).erase c2.face_key).map
                  (face_vertices_of m)) := by
            have h1 : (((live_faces m).erase c1.face_key).erase c2.face_key).map
                (face_vertices_of m)
                ++ [face_vertices_of m c1.face_key, face_vertices_of m c2.face_key]
                = ((((live_faces m).erase c1.face_key).erase c2.face_key).map
                    (face_vertices_of m) ++ [face_vertices_of m c1.face_key])
                  ++ [face_vertices_of m c2.face_key] := by simp
            rw [h1]
            exact (List.perm_append_singleton _ _).trans
              ((List.perm_append_singleton _ _).cons _)
          exact hperm0.trans ((List.Perm.swap _ _ _).trans hsw.symm)
        · rw [hlive]
          simp only [List.map_append, List.map_cons, List.map_nil]
          exact List.rel_append (forall2_map_rot hframe)
            (List.Forall₂.cons hg1 (List.Forall₂.cons hg2 List.Forall₂.nil))

/-- **C4** counterexample: on `c4_mesh` (a 2-gon face `f3 = [v1, v2]` and a
point-sphere `f4 = [v3]`), inserting the edge `{v3, v2}` between the two
faces and deleting it again with recomputed corners — exactly the round trip
of the claim, `c1.vertex ≠ c2.vertex`, edge not present — does *not* restore
the boundary multiset: the point-sphere's vertex `v3` is lost and `v2` is
duplicated (final boundaries `[v1, v2]` and `[v2]`). -/
theorem insert_delete_point_sphere_loss :
    ("v3" : VertexKey) ≠ "v2" ∧
    edge_key "v3" "v2" ∉ c4_mesh.edge_keys ∧
    c4_trip = round_trip c4_mesh
      (corner_from_face_vertex c4_mesh "f4" "v3")
      (corner_from_face_vertex c4_mesh "f3" "v2") ∧
    (live_faces c4_mesh).map (face_vertices_of c4_mesh)
      = [["v1", "v2"], ["v3"]] ∧
    (live_faces c4_trip).map (face_vertices_of c4_trip)
      = [["v1", "v2"], ["v2"]] ∧
    ¬ ∃ L, ((live_faces c4_mesh).map (face_vertices_of c4_mesh)).Perm L ∧
      List.Forall₂ (fun p q => p.IsRotated q)
        ((live_faces c4_trip).map (face_vertices_of c4_trip)) L := by
  refine ⟨by decide, by decide, by decide, by decide, by decide, ?_⟩
  rintro ⟨L, hperm, hf⟩
  rw [show (live_faces c4_mesh).map (face_vertices_of c4_mesh)
    = [["v1", "v2"], ["v3"]] from by decide] at hperm
  rw [show (live_faces c4_trip).map (face_vertices_of c4_trip)
    = [["v1", "v2"], ["v2"]] from by decide] at hf
  cases hf with
  | cons h1 htl =>
    cases htl with
    | cons h2 htl2 =>
      cases htl2 with
      | nil =>
        have hmem := hperm.mem_iff.1 (by simp : ["v3"] ∈ [["v1", "v2"], ["v3"]])
        rcases List.mem_cons.1 hmem with hmem | hmem
        · have hlen := h1.perm.length_eq
          rw [← hmem] at hlen
          simp at hlen
        · rcases List.mem_cons.1 hmem with hmem | hmem
          · have hm2 := h2.perm.mem_iff.1 (by simp : "v2" ∈ ["v2"])
            rw [← hmem] at hm2
            exact absurd hm2 (by decide)
          · simp at hmem

/-- **C4** witness: the amended round-trip theorem applied to `two_gon_mesh`
(two disjoint 2-gon faces `f1 = [v1, v2]`, `f2 = [v3, v4]`), inserting and
deleting an edge between `v1` and `v3`. -/
theorem insert_delete_round_trip_witness :
    (round_trip two_gon_mesh
        (corner_from_face_vertex two_gon_mesh "f1" "v1")
        (corner_from_face_vertex two_gon_mesh "f2" "v3")).vertex_keys
      = two_gon_mesh.vertex_keys ∧
    (round_trip two_gon_mesh
        (corner_from_face_vertex two_gon_mesh "f1" "v1")
        (corner_from_face_vertex two_gon_mesh "f2" "v3")).edge_keys
      = two_gon_mesh.edge_keys ∧
    (live_faces (round_trip two_gon_mesh
        (corner_from_face_vertex two_gon_mesh "f1" "v1")
        (corner_from_face_vertex two_gon_mesh "f2" "v3"))).length
      = (live_faces two_gon_mesh).length ∧
    ∃ L, ((live_faces two_gon_mesh).map (face_vertices_of two_gon_mesh)).Perm L ∧
      List.Forall₂ (fun p q => p.IsRotated q)
        ((live_faces (round_trip two_gon_mesh
            (corner_from_face_vertex two_gon_mesh "f1" "v1")
            (corner_from_face_vertex two_gon_mesh "f2" "v3"))).map
          (face_vertices_of (round_trip two_gon_mesh
            (corner_from_face_vertex two_gon_mesh "f1" "v1")
            (corner_from_face_vertex two_gon_mesh "f2" "v3")))) L := by
  have h := insert_delete_round_trip two_gon_mesh
    (corner_from_face_vertex two_gon_mesh "f1" "v1")
    (corner_from_face_vertex two_gon_mesh "f2" "v3")
    (by decide) (by decide) (by decide) (by decide) (by decide) (by decide)
    (by decide) (by decide) (by decide)
  exact ⟨h.1, h.2.2.1, h.2.2.2.1, h.2.2.2.2⟩

end PyTopMod
